import Mathlib

/-!
Verification of the distributed-circuit transmission-line media
(`skrf/media/distributedCircuit.py`) against its specification.

The numeric state of the python class is embedded over exact reals:
a stored parameter is a scalar or a 1-d array of reals, angular
frequency is `w = 2*pi*f`, and the numpy elementwise arithmetic
(including its broadcasting rules and the principal-branch complex
square root) is modelled by the definitions below.  Fallible accesses
(shape errors, a missing frequency grid, formatting failures) return
`Except`.
-/

open Complex (I)

noncomputable section

/-- a python runtime error kind relevant to this component:
`typeError` (rejected format spec), `shapeError` (numpy broadcast
failure, a `ValueError`), `missingGrid` (derivation requested with no
frequency grid), `indexError` (indexing an empty array). -/
inductive PyErr where
  | typeError
  | shapeError
  | missingGrid
  | indexError
deriving DecidableEq, Repr

/-- a stored real-valued attribute: a scalar or a 1-d array, exactly as
supplied to the constructor. -/
inductive RParam where
  | scalar (x : ℝ)
  | vector (xs : List ℝ)

/-- a complex-valued intermediate value: scalar or 1-d array. -/
inductive CVal where
  | scalar (z : ℂ)
  | vector (zs : List ℂ)

/-- the external frequency grid: the list of frequency samples in Hz
and the display unit.  Only `w`, `f_scaled`, `unit` and `npoints` are
consumed by this component. -/
structure Frequency where
  f : List ℝ
  unit : String

/-- angular frequency vector, `w = 2*pi*f`. -/
def Frequency.w (fr : Frequency) : List ℝ :=
  fr.f.map (fun x => 2 * Real.pi * x)

/-- number of frequency samples. -/
def Frequency.npoints (fr : Frequency) : Nat := fr.f.length

/-- coerce a stored real parameter to complex for arithmetic with `1j*w`. -/
def RParam.toC : RParam → CVal
  | .scalar x => .scalar (x : ℂ)
  | .vector xs => .vector (xs.map (fun x : ℝ => (x : ℂ)))

/-- numpy elementwise binary operation on two 1-d complex arrays:
equal lengths combine samplewise; a length-1 array broadcasts against
the other operand; any other length mismatch raises a shape error. -/
def bcastList (op : ℂ → ℂ → ℂ) (as bs : List ℂ) : Except PyErr (List ℂ) :=
  if as.length = bs.length then .ok (List.zipWith op as bs)
  else if as.length = 1 then .ok (bs.map (op as.headI))
  else if bs.length = 1 then .ok (as.map (fun a => op a bs.headI))
  else .error .shapeError

/-- numpy elementwise binary operation on two 1-d real arrays, with the
same broadcasting rules as `bcastList`. -/
def bcastListR (op : ℝ → ℝ → ℝ) (as bs : List ℝ) : Except PyErr (List ℝ) :=
  if as.length = bs.length then .ok (List.zipWith op as bs)
  else if as.length = 1 then .ok (bs.map (op as.headI))
  else if bs.length = 1 then .ok (as.map (fun a => op a bs.headI))
  else .error .shapeError

/-- numpy binary operation on scalar-or-array operands: scalars
broadcast over arrays, arrays combine via `bcastList`. -/
def bcastOp (op : ℂ → ℂ → ℂ) : CVal → CVal → Except PyErr CVal
  | .scalar a, .scalar b => .ok (.scalar (op a b))
  | .scalar a, .vector bs => .ok (.vector (bs.map (op a)))
  | .vector as, .scalar b => .ok (.vector (as.map (fun a => op a b)))
  | .vector as, .vector bs => (bcastList op as bs).map .vector

/-- the `DistributedCircuit` instance state: the media-base fields
(`frequency`, `z0_port`) and the four distributed parameters, stored
exactly as supplied. -/
structure DistributedCircuit where
  frequency : Option Frequency
  z0_port : Option CVal
  C : RParam
  L : RParam
  R : RParam
  G : RParam

/-- `DistributedCircuit.__init__`: stores the grid, the port impedance
and the four parameters as given; an argument that is not supplied
takes the python default (`C=90e-12`, `L=280e-9`, `R=0`, `G=0`). -/
def DistributedCircuit.ofInit (frequency : Option Frequency) (z0_port : Option CVal)
    (C L R G : Option RParam) : DistributedCircuit :=
  { frequency := frequency
    z0_port := z0_port
    C := C.getD (.scalar 90e-12)
    L := L.getD (.scalar 280e-9)
    R := R.getD (.scalar 0)
    G := G.getD (.scalar 0) }

/-- Modelled from the spec: the media base (not under `src/`) stores the
optional frequency grid, and a derivation requested without a grid is
reported as the missing-grid error. -/
def DistributedCircuit.wvec (m : DistributedCircuit) : Except PyErr (List ℝ) :=
  match m.frequency with
  | some fr => .ok fr.w
  | none => .error .missingGrid

/-- the degeneracy guard on one sample: `Z[Z.imag == 0] += 1j*1e-12`
adds the absolute constant `1j*1e-12` to every sample whose imaginary
part is exactly zero. -/
def nudgeAt (z : ℂ) : ℂ :=
  if z.im = 0 then z + I * ((1e-12 : ℝ) : ℂ) else z

/-- the degeneracy guard applied over a scalar-or-array value. -/
def nudgeC : CVal → CVal
  | .scalar z => .scalar (nudgeAt z)
  | .vector zs => .vector (zs.map nudgeAt)

/-- the raw distributed impedance `self.R + 1j*w*self.L`, before the
degeneracy guard. -/
def DistributedCircuit.Zraw (m : DistributedCircuit) : Except PyErr CVal := do
  let w ← m.wvec
  let t1 ← bcastOp (fun a b => a * b) (.scalar I) (.vector (w.map (fun x : ℝ => (x : ℂ))))
  let t2 ← bcastOp (fun a b => a * b) t1 m.L.toC
  bcastOp (fun a b => a + b) m.R.toC t2

/-- the `Z` property: distributed impedance with the degeneracy guard. -/
def DistributedCircuit.Z (m : DistributedCircuit) : Except PyErr CVal :=
  m.Zraw.map nudgeC

/-- the raw distributed admittance `self.G + 1j*w*self.C`, before the
degeneracy guard. -/
def DistributedCircuit.Yraw (m : DistributedCircuit) : Except PyErr CVal := do
  let w ← m.wvec
  let t1 ← bcastOp (fun a b => a * b) (.scalar I) (.vector (w.map (fun x : ℝ => (x : ℂ))))
  let t2 ← bcastOp (fun a b => a * b) t1 m.C.toC
  bcastOp (fun a b => a + b) m.G.toC t2

/-- the `Y` property: distributed admittance with the degeneracy guard. -/
def DistributedCircuit.Y (m : DistributedCircuit) : Except PyErr CVal :=
  m.Yraw.map nudgeC

/-- principal-branch complex square root (numpy `sqrt` on complex data):
nonnegative real part, and a zero real part resolved to a nonnegative
imaginary part. -/
def csqrt (z : ℂ) : ℂ :=
  ⟨Real.sqrt ((Complex.abs z + z.re) / 2),
   (if z.im < 0 then (-1 : ℝ) else 1) * Real.sqrt ((Complex.abs z - z.re) / 2)⟩

/-- elementwise principal square root over a scalar-or-array value. -/
def csqrtC : CVal → CVal
  | .scalar z => .scalar (csqrt z)
  | .vector zs => .vector (zs.map csqrt)

/-- the `z0_characteristic` property: `sqrt(self.Z/self.Y)`. -/
def DistributedCircuit.z0_characteristic (m : DistributedCircuit) : Except PyErr CVal := do
  let z ← m.Z
  let y ← m.Y
  let q ← bcastOp (fun a b => a / b) z y
  pure (csqrtC q)

/-- the `gamma` property: `sqrt(self.Z*self.Y)`. -/
def DistributedCircuit.gamma (m : DistributedCircuit) : Except PyErr CVal := do
  let z ← m.Z
  let y ← m.Y
  let q ← bcastOp (fun a b => a * b) z y
  pure (csqrtC q)

/-- Modelled from the spec: the external media interface consumed by the
inverse constructor — a frequency grid, the wave descriptors `gamma`
and `z0` over that grid, and the port-impedance policy. -/
structure RawMedia where
  frequency : Frequency
  gamma : List ℂ
  z0 : List ℂ
  z0_port : Option CVal

/-- `DistributedCircuit.from_media`: recovers the distributed parameters
from an external media as `Y = gamma/z0`, `Z = gamma*z0`,
`G,C = re(Y), im(Y)/w`, `R,L = re(Z), im(Z)/w`, and constructs the new
mode on the same grid with the source port impedance. -/
def DistributedCircuit.from_media (md : RawMedia) : Except PyErr DistributedCircuit := do
  let w := md.frequency.w
  let Yv ← bcastList (fun a b => a / b) md.gamma md.z0
  let Zv ← bcastList (fun a b => a * b) md.gamma md.z0
  let Gv := Yv.map Complex.re
  let Cv ← bcastListR (fun a b => a / b) (Yv.map Complex.im) w
  let Rv := Zv.map Complex.re
  let Lv ← bcastListR (fun a b => a / b) (Zv.map Complex.im) w
  pure (DistributedCircuit.ofInit (some md.frequency) md.z0_port
    (some (.vector Cv)) (some (.vector Lv)) (some (.vector Rv)) (some (.vector Gv)))

/-- a mode built from four scalar parameters over a grid, as in direct
construction with scalar arguments. -/
def scalarMode (fr : Frequency) (R L G C : ℝ) : DistributedCircuit :=
  DistributedCircuit.ofInit (some fr) none
    (some (.scalar C)) (some (.scalar L)) (some (.scalar R)) (some (.scalar G))

/-- field update `self.R = r` after construction. -/
def DistributedCircuit.setR (m : DistributedCircuit) (r : RParam) : DistributedCircuit :=
  { m with R := r }

/-- field update `self.L = l` after construction. -/
def DistributedCircuit.setL (m : DistributedCircuit) (l : RParam) : DistributedCircuit :=
  { m with L := l }

/-- field update `self.G = g` after construction. -/
def DistributedCircuit.setG (m : DistributedCircuit) (g : RParam) : DistributedCircuit :=
  { m with G := g }

/-- field update `self.C = c` after construction. -/
def DistributedCircuit.setC (m : DistributedCircuit) (c : RParam) : DistributedCircuit :=
  { m with C := c }

/-- the `Z` property access as a state transformer: the method body
reads `self.frequency`, `self.R`, `self.L` and writes only its local
result array, so the receiver after the access is unchanged. -/
def DistributedCircuit.Zaccess (m : DistributedCircuit) :
    Except PyErr CVal × DistributedCircuit :=
  (m.Z, m)

/-- the `Y` property access as a state transformer (no write to self). -/
def DistributedCircuit.Yaccess (m : DistributedCircuit) :
    Except PyErr CVal × DistributedCircuit :=
  (m.Y, m)

/-- the `z0_characteristic` property access as a state transformer. -/
def DistributedCircuit.z0access (m : DistributedCircuit) :
    Except PyErr CVal × DistributedCircuit :=
  (m.z0_characteristic, m)

/-- the `gamma` property access as a state transformer. -/
def DistributedCircuit.gammaAccess (m : DistributedCircuit) :
    Except PyErr CVal × DistributedCircuit :=
  (m.gamma, m)

/-- the python format protocol for `format(x, ".2f")` as used by
`__str__`: a runtime float formats through the platform float
formatter (abstracted as `showR`); a sequence value rejects a nonempty
numeric format spec with a `TypeError`. -/
def pyFormat2f (showR : ℝ → String) : RParam → Except PyErr String
  | .scalar x => .ok (showR x)
  | .vector _ => .error .typeError

/-- the frequency header line of `__str__`: first and last scaled
frequency samples, unit and point count (an empty grid would fail the
indexing). -/
def strHead (showR : ℝ → String) (fr : Frequency) : Except PyErr String :=
  match fr.f with
  | [] => .error .indexError
  | f0 :: rest =>
      .ok ("Distributed Circuit Media.  " ++ showR f0 ++ "-" ++
        showR (List.getLastD (f0 :: rest) 0) ++ " " ++ fr.unit ++ ".  " ++
        toString fr.npoints ++ " points")

/-- the parameter line of `__str__`: each of `L`, `C`, `R`, `G` is
formatted with the fixed-point spec `.2f`, followed by `suffix`
(empty in the try branch, `".."` in the except branch). -/
def strBody (showR : ℝ → String) (m : DistributedCircuit) (suffix : String) :
    Except PyErr String := do
  let sL ← pyFormat2f showR m.L
  let sC ← pyFormat2f showR m.C
  let sR ← pyFormat2f showR m.R
  let sG ← pyFormat2f showR m.G
  pure ("\nL\x27= " ++ sL ++ suffix ++ ", C\x27= " ++ sC ++ suffix ++
    ",R\x27= " ++ sR ++ suffix ++ ", G\x27= " ++ sG ++ suffix ++ ", ")

/-- `DistributedCircuit.__str__`: renders the scalar form; a
`TypeError` from the scalar formatting is caught and the fallback line
with `..` markers is rendered instead — whose own failure propagates
to the caller. -/
def DistributedCircuit.strForm (showR : ℝ → String) (m : DistributedCircuit) :
    Except PyErr String := do
  let fr ← match m.frequency with
    | some fr => pure fr
    | none => throw PyErr.missingGrid
  match (do
      let h ← strHead showR fr
      let b ← strBody showR m ""
      pure (h ++ b) : Except PyErr String) with
  | .ok s => pure s
  | .error .typeError => do
      let h ← strHead showR fr
      let b ← strBody showR m ".."
      pure (h ++ b)
  | .error e => throw e

/-- membership in the closed sector `0 < im <= re` of the first octant;
the principal square root of a first-quadrant value with positive
imaginary part lands here. -/
def InSector (u : ℂ) : Prop := 0 < u.im ∧ u.im ≤ u.re

/-- the raw DC sample of the all-zero mode on the one-point 0 Hz grid,
used as a concrete instance below. -/
def dcSample : ℂ := ((0 : ℝ) : ℂ) + I * ((2 * Real.pi * 0 : ℝ) : ℂ) * ((0 : ℝ) : ℂ)

/-- the squared-modulus identity used throughout the square-root lemmas. -/
lemma abs_sq_split (z : ℂ) : (Complex.abs z) ^ 2 = z.re ^ 2 + z.im ^ 2 := by
  rw [Complex.sq_abs, Complex.normSq_apply]; ring

/-- the real part of the principal square root is nonnegative. -/
lemma csqrt_re_nonneg (z : ℂ) : 0 ≤ (csqrt z).re := Real.sqrt_nonneg _

/-- the principal square root squares back to its argument. -/
lemma csqrt_mul_self (z : ℂ) : csqrt z * csqrt z = z := by
  have hxr : |z.re| ≤ Complex.abs z := Complex.abs_re_le_abs z
  have hA : 0 ≤ (Complex.abs z + z.re) / 2 := by
    have := neg_abs_le z.re; linarith
  have hB : 0 ≤ (Complex.abs z - z.re) / 2 := by
    have := le_abs_self z.re; linarith
  have h2 := abs_sq_split z
  have hAB : ((Complex.abs z + z.re) / 2) * ((Complex.abs z - z.re) / 2)
      = (z.im / 2) ^ 2 := by linear_combination h2 / 4
  have hsq : Real.sqrt ((Complex.abs z + z.re) / 2) *
      Real.sqrt ((Complex.abs z - z.re) / 2) = |z.im| / 2 := by
    rw [← Real.sqrt_mul hA, hAB, Real.sqrt_sq_eq_abs, abs_div]
    norm_num
  have eA : Real.sqrt ((Complex.abs z + z.re) / 2) *
      Real.sqrt ((Complex.abs z + z.re) / 2) = (Complex.abs z + z.re) / 2 :=
    Real.mul_self_sqrt hA
  have eB : Real.sqrt ((Complex.abs z - z.re) / 2) *
      Real.sqrt ((Complex.abs z - z.re) / 2) = (Complex.abs z - z.re) / 2 :=
    Real.mul_self_sqrt hB
  apply Complex.ext
  · rw [Complex.mul_re]
    rcases lt_or_le z.im 0 with h | h
    · simp only [csqrt, if_pos h]
      linear_combination eA - eB
    · simp only [csqrt, if_neg (not_lt.mpr h)]
      linear_combination eA - eB
  · rw [Complex.mul_im]
    rcases lt_or_le z.im 0 with h | h
    · rw [abs_of_neg h] at hsq
      simp only [csqrt, if_pos h]
      linear_combination (-2 : ℝ) * hsq
    · rw [abs_of_nonneg h] at hsq
      simp only [csqrt, if_neg (not_lt.mpr h)]
      linear_combination (2 : ℝ) * hsq

/-- a zero real part of the principal square root forces a nonnegative
imaginary part (the branch-cut tie-break). -/
lemma csqrt_im_nonneg_of_re_eq_zero (z : ℂ) (h : (csqrt z).re = 0) :
    0 ≤ (csqrt z).im := by
  have hxr : |z.re| ≤ Complex.abs z := Complex.abs_re_le_abs z
  have hA : 0 ≤ (Complex.abs z + z.re) / 2 := by
    have := neg_abs_le z.re; linarith
  have hA0 : (Complex.abs z + z.re) / 2 ≤ 0 := by
    have h' : Real.sqrt ((Complex.abs z + z.re) / 2) = 0 := h
    exact Real.sqrt_eq_zero'.mp h'
  have hre : z.re = -Complex.abs z := by linarith
  have hy : z.im = 0 := by
    have h2 := abs_sq_split z
    have hresq : z.re ^ 2 = (Complex.abs z) ^ 2 := by rw [hre]; ring
    have hy2 : z.im ^ 2 = 0 := by linarith
    exact sq_eq_zero_iff.mp hy2
  simp only [csqrt, hy]
  rw [if_neg (by norm_num)]
  have := Real.sqrt_nonneg ((Complex.abs z - z.re) / 2)
  linarith

/-- uniqueness: any square root lying in the principal half plane is
the principal square root. -/
lemma csqrt_unique (w z : ℂ) (hw2 : w * w = z)
    (hw : 0 < w.re ∨ (w.re = 0 ∧ 0 ≤ w.im)) : csqrt z = w := by
  have h2 : csqrt z * csqrt z = w * w := by rw [csqrt_mul_self, hw2]
  rcases mul_self_eq_mul_self_iff.mp h2 with h | h
  · exact h
  · have hre : (csqrt z).re = -w.re := by rw [h]; simp
    have hnn := csqrt_re_nonneg z
    rcases hw with hp | ⟨h0, hi⟩
    · exfalso; rw [hre] at hnn; linarith
    · have hre0 : (csqrt z).re = 0 := by rw [hre, h0, neg_zero]
      have him := csqrt_im_nonneg_of_re_eq_zero z hre0
      have him2 : (csqrt z).im = -w.im := by rw [h]; simp
      have hwim : w.im = 0 := by rw [him2] at him; linarith
      have hw0 : w = 0 := by
        apply Complex.ext <;> simp [h0, hwim]
      rw [h, hw0, neg_zero]

lemma InSector.re_pos {u : ℂ} (h : InSector u) : 0 < u.re :=
  lt_of_lt_of_le h.1 h.2

lemma InSector.ne_zero {u : ℂ} (h : InSector u) : u ≠ 0 := by
  intro e
  rw [e] at h
  exact absurd h.1 (by simp)

/-- the principal square root of a first-quadrant value with strictly
positive imaginary part lies in the first octant sector. -/
lemma sector_csqrt (z : ℂ) (hx : 0 ≤ z.re) (hy : 0 < z.im) :
    InSector (csqrt z) := by
  have h2 := abs_sq_split z
  have hnn : 0 ≤ Complex.abs z := Complex.abs.nonneg z
  have hrx : z.re < Complex.abs z := by nlinarith [le_abs_self z.re]
  constructor
  · simp only [csqrt, if_neg (not_lt.mpr hy.le), one_mul]
    exact Real.sqrt_pos.mpr (by linarith)
  · simp only [csqrt, if_neg (not_lt.mpr hy.le), one_mul]
    exact Real.sqrt_le_sqrt (by linarith)

/-- the product of two sector values stays in the principal half plane. -/
lemma sector_mul {u v : ℂ} (hu : InSector u) (hv : InSector v) :
    0 ≤ (u * v).re ∧ 0 < (u * v).im := by
  obtain ⟨hui, hur⟩ := hu
  obtain ⟨hvi, hvr⟩ := hv
  constructor
  · rw [Complex.mul_re]; nlinarith
  · rw [Complex.mul_im]; nlinarith

/-- the quotient of two sector values has positive real part. -/
lemma sector_div_re_pos {u v : ℂ} (hu : InSector u) (hv : InSector v) :
    0 < (u / v).re := by
  rw [Complex.div_re]
  have hns : 0 < Complex.normSq v := Complex.normSq_pos.mpr hv.ne_zero
  have h1 : 0 < u.re * v.re := mul_pos hu.re_pos hv.re_pos
  have h2 : 0 < u.im * v.im := mul_pos hu.1 hv.1
  have := div_pos h1 hns
  have := div_pos h2 hns
  linarith

/-- multiplicativity of the principal square root on the first
quadrant (both arguments with nonnegative real and positive imaginary
part). -/
lemma csqrt_mul (a b : ℂ) (ha : 0 ≤ a.re) (ha' : 0 < a.im)
    (hb : 0 ≤ b.re) (hb' : 0 < b.im) :
    csqrt (a * b) = csqrt a * csqrt b := by
  have hu := sector_csqrt a ha ha'
  have hv := sector_csqrt b hb hb'
  apply csqrt_unique
  · rw [mul_mul_mul_comm, csqrt_mul_self, csqrt_mul_self]
  · have h := sector_mul hu hv
    rcases lt_or_eq_of_le h.1 with hlt | heq
    · exact Or.inl hlt
    · exact Or.inr ⟨heq.symm, h.2.le⟩

/-- the principal square root respects quotients on the first quadrant. -/
lemma csqrt_div (a b : ℂ) (ha : 0 ≤ a.re) (ha' : 0 < a.im)
    (hb : 0 ≤ b.re) (hb' : 0 < b.im) :
    csqrt (a / b) = csqrt a / csqrt b := by
  have hu := sector_csqrt a ha ha'
  have hv := sector_csqrt b hb hb'
  apply csqrt_unique
  · rw [div_mul_div_comm, csqrt_mul_self, csqrt_mul_self]
  · exact Or.inl (sector_div_re_pos hu hv)

/-- the algebraic heart of both round-trip laws:
`sqrt(a*b) * sqrt(a/b) = a` and `sqrt(a*b) / sqrt(a/b) = b` whenever
`a` and `b` lie in the open upper first quadrant. -/
lemma roundtrip_core (a b : ℂ) (ha : 0 ≤ a.re) (ha' : 0 < a.im)
    (hb : 0 ≤ b.re) (hb' : 0 < b.im) :
    csqrt (a * b) * csqrt (a / b) = a ∧ csqrt (a * b) / csqrt (a / b) = b := by
  have hu0 : csqrt a ≠ 0 := (sector_csqrt a ha ha').ne_zero
  have hv0 : csqrt b ≠ 0 := (sector_csqrt b hb hb').ne_zero
  rw [csqrt_mul a b ha ha' hb hb', csqrt_div a b ha ha' hb hb']
  constructor
  · have h : csqrt a * csqrt b * (csqrt a / csqrt b)
        = (csqrt a * csqrt a) * (csqrt b / csqrt b) := by ring
    rw [h, div_self hv0, mul_one, csqrt_mul_self]
  · have h : csqrt a * csqrt b / (csqrt a / csqrt b)
        = (csqrt b * csqrt b) * (csqrt a / csqrt a) := by
      field_simp
      ring
    rw [h, div_self hu0, mul_one, csqrt_mul_self]

/-- zipping two maps over one index list is a single map. -/
lemma zipWith_map_same {α β γ δ : Type} (f : β → γ → δ) (g : α → β) (h : α → γ)
    (l : List α) :
    List.zipWith f (l.map g) (l.map h) = l.map (fun x => f (g x) (h x)) := by
  induction l with
  | nil => rfl
  | cons a t ih => simp [ih]

/-- zipping a map against its own index list is a single map. -/
lemma zipWith_map_left_same {α β δ : Type} (f : β → α → δ) (g : α → β)
    (l : List α) :
    List.zipWith f (l.map g) l = l.map (fun x => f (g x) x) := by
  induction l with
  | nil => rfl
  | cons a t ih => simp [ih]

/-- pointwise-equal functions map lists equally. -/
lemma map_congr_mem {α β : Type} {f g : α → β} {l : List α}
    (h : ∀ a ∈ l, f a = g a) : l.map f = l.map g := by
  induction l with
  | nil => rfl
  | cons a t ih =>
      simp only [List.map_cons]
      rw [h a (List.mem_cons_self a t), ih (fun x hx => h x (List.mem_cons_of_mem _ hx))]

/-- the degeneracy guard leaves a list of samples with nonzero
imaginary parts unchanged. -/
lemma map_nudge_id {zs : List ℂ} (h : ∀ z ∈ zs, z.im ≠ 0) :
    zs.map nudgeAt = zs := by
  have h' : ∀ z ∈ zs, nudgeAt z = id z := by
    intro z hz
    simp [nudgeAt, h z hz]
  rw [map_congr_mem h', List.map_id]

/-- real part of a per-frequency impedance sample `R + j*w*L`. -/
lemma rlgc_re (R L x : ℝ) : ((R : ℂ) + I * (x : ℂ) * (L : ℂ)).re = R := by
  simp [Complex.mul_re, Complex.mul_im]

/-- imaginary part of a per-frequency impedance sample `R + j*w*L`. -/
lemma rlgc_im (R L x : ℝ) : ((R : ℂ) + I * (x : ℂ) * (L : ℂ)).im = x * L := by
  simp [Complex.mul_re, Complex.mul_im]

/-- the raw distributed impedance of a scalar-parameter mode is the
samplewise `R + j*w*L` over the grid. -/
lemma Zraw_scalar (fr : Frequency) (Rp Lp Gp Cp : ℝ) :
    (scalarMode fr Rp Lp Gp Cp).Zraw =
      .ok (.vector (fr.w.map (fun x : ℝ => (Rp : ℂ) + I * (x : ℂ) * (Lp : ℂ)))) := by
  have h : (scalarMode fr Rp Lp Gp Cp).Zraw =
      .ok (.vector ((((fr.w.map (fun x : ℝ => (x : ℂ))).map
        (fun b => I * b)).map (fun a => a * (Lp : ℂ))).map
          (fun b => (Rp : ℂ) + b))) := rfl
  rw [h, List.map_map, List.map_map, List.map_map]
  rfl

/-- the raw distributed admittance of a scalar-parameter mode is the
samplewise `G + j*w*C` over the grid. -/
lemma Yraw_scalar (fr : Frequency) (Rp Lp Gp Cp : ℝ) :
    (scalarMode fr Rp Lp Gp Cp).Yraw =
      .ok (.vector (fr.w.map (fun x : ℝ => (Gp : ℂ) + I * (x : ℂ) * (Cp : ℂ)))) := by
  have h : (scalarMode fr Rp Lp Gp Cp).Yraw =
      .ok (.vector ((((fr.w.map (fun x : ℝ => (x : ℂ))).map
        (fun b => I * b)).map (fun a => a * (Cp : ℂ))).map
          (fun b => (Gp : ℂ) + b))) := rfl
  rw [h, List.map_map, List.map_map, List.map_map]
  rfl

/-- all angular-frequency samples of a positive-frequency grid are
positive. -/
lemma wvec_pos {fr : Frequency} (hf : ∀ x ∈ fr.f, 0 < x) :
    ∀ x ∈ fr.w, 0 < x := by
  intro x hx
  simp only [Frequency.w, List.mem_map] at hx
  obtain ⟨y, hy, rfl⟩ := hx
  have := hf y hy
  positivity

/-- bind of a successful `Except` reduces. -/
lemma ok_bind {ε α β : Type} (a : α) (f : α → Except ε β) :
    (Except.ok a : Except ε α) >>= f = f a := rfl

/-- map over a successful `Except` reduces. -/
lemma map_ok {ε α β : Type} (f : α → β) (a : α) :
    Except.map f (Except.ok a : Except ε α) = .ok (f a) := rfl

/-- array-array broadcasting on equal lengths is samplewise zipping. -/
lemma bcastList_eq_len (op : ℂ → ℂ → ℂ) {as bs : List ℂ}
    (h : as.length = bs.length) :
    bcastList op as bs = .ok (List.zipWith op as bs) := by
  rw [bcastList, if_pos h]

/-- real array-array broadcasting on equal lengths is samplewise zipping. -/
lemma bcastListR_eq_len (op : ℝ → ℝ → ℝ) {as bs : List ℝ}
    (h : as.length = bs.length) :
    bcastListR op as bs = .ok (List.zipWith op as bs) := by
  rw [bcastListR, if_pos h]

/-- array-array `bcastOp` delegates to `bcastList`. -/
lemma bcastOp_vec_vec (op : ℂ → ℂ → ℂ) (as bs : List ℂ) :
    bcastOp op (.vector as) (.vector bs) = (bcastList op as bs).map .vector := rfl

/-- the guarded distributed impedance of a scalar-parameter mode whose
samples are never purely real. -/
lemma Z_scalar (fr : Frequency) (Rp Lp Gp Cp : ℝ)
    (hL : ∀ x ∈ fr.w, x * Lp ≠ 0) :
    (scalarMode fr Rp Lp Gp Cp).Z =
      .ok (.vector (fr.w.map (fun x : ℝ => (Rp : ℂ) + I * (x : ℂ) * (Lp : ℂ)))) := by
  show ((scalarMode fr Rp Lp Gp Cp).Zraw).map nudgeC = _
  rw [Zraw_scalar, map_ok]
  show Except.ok (CVal.vector
    ((fr.w.map (fun x : ℝ => (Rp : ℂ) + I * (x : ℂ) * (Lp : ℂ))).map nudgeAt)) = _
  rw [map_nudge_id]
  intro z hz
  obtain ⟨x, hx, rfl⟩ := List.mem_map.mp hz
  rw [rlgc_im]
  exact hL x hx

/-- the guarded distributed admittance of a scalar-parameter mode whose
samples are never purely real. -/
lemma Y_scalar (fr : Frequency) (Rp Lp Gp Cp : ℝ)
    (hC : ∀ x ∈ fr.w, x * Cp ≠ 0) :
    (scalarMode fr Rp Lp Gp Cp).Y =
      .ok (.vector (fr.w.map (fun x : ℝ => (Gp : ℂ) + I * (x : ℂ) * (Cp : ℂ)))) := by
  show ((scalarMode fr Rp Lp Gp Cp).Yraw).map nudgeC = _
  rw [Yraw_scalar, map_ok]
  show Except.ok (CVal.vector
    ((fr.w.map (fun x : ℝ => (Gp : ℂ) + I * (x : ℂ) * (Cp : ℂ))).map nudgeAt)) = _
  rw [map_nudge_id]
  intro z hz
  obtain ⟨x, hx, rfl⟩ := List.mem_map.mp hz
  rw [rlgc_im]
  exact hC x hx

/-- the propagation constant of a scalar-parameter mode: samplewise
`sqrt(Z*Y)`. -/
lemma gamma_scalar (fr : Frequency) (Rp Lp Gp Cp : ℝ)
    (hL : ∀ x ∈ fr.w, x * Lp ≠ 0) (hC : ∀ x ∈ fr.w, x * Cp ≠ 0) :
    (scalarMode fr Rp Lp Gp Cp).gamma =
      .ok (.vector (fr.w.map (fun x : ℝ =>
        csqrt (((Rp : ℂ) + I * (x : ℂ) * (Lp : ℂ)) *
          ((Gp : ℂ) + I * (x : ℂ) * (Cp : ℂ)))))) := by
  simp only [DistributedCircuit.gamma]
  rw [Z_scalar fr Rp Lp Gp Cp hL, ok_bind, Y_scalar fr Rp Lp Gp Cp hC, ok_bind,
    bcastOp_vec_vec, bcastList_eq_len _ (by rw [List.length_map, List.length_map]),
    map_ok, ok_bind, zipWith_map_same]
  show Except.ok (CVal.vector (List.map csqrt _)) = _
  rw [List.map_map]
  rfl

/-- the characteristic impedance of a scalar-parameter mode: samplewise
`sqrt(Z/Y)`. -/
lemma z0c_scalar (fr : Frequency) (Rp Lp Gp Cp : ℝ)
    (hL : ∀ x ∈ fr.w, x * Lp ≠ 0) (hC : ∀ x ∈ fr.w, x * Cp ≠ 0) :
    (scalarMode fr Rp Lp Gp Cp).z0_characteristic =
      .ok (.vector (fr.w.map (fun x : ℝ =>
        csqrt (((Rp : ℂ) + I * (x : ℂ) * (Lp : ℂ)) /
          ((Gp : ℂ) + I * (x : ℂ) * (Cp : ℂ)))))) := by
  simp only [DistributedCircuit.z0_characteristic]
  rw [Z_scalar fr Rp Lp Gp Cp hL, ok_bind, Y_scalar fr Rp Lp Gp Cp hC, ok_bind,
    bcastOp_vec_vec, bcastList_eq_len _ (by rw [List.length_map, List.length_map]),
    map_ok, ok_bind, zipWith_map_same]
  show Except.ok (CVal.vector (List.map csqrt _)) = _
  rw [List.map_map]
  rfl

/-- C1 (amended): build a mode from scalar `R >= 0`, `L > 0`, `G >= 0`,
`C > 0` over a grid of positive frequencies (so no sample is DC and the
degeneracy guard never fires); construct a second mode by `from_media`
from an external media carrying the first mode's `gamma` and `z0` on
the same grid; then the recovered `R`, `L`, `G`, `C` vectors equal the
original scalars at every sample, exactly. -/
theorem C1_param_roundtrip (fr : Frequency) (Rp Lp Gp Cp : ℝ) (p : Option CVal)
    (hf : ∀ x ∈ fr.f, 0 < x) (hR : 0 ≤ Rp) (hL : 0 < Lp)
    (hG : 0 ≤ Gp) (hC : 0 < Cp) :
    ∃ gs zs m₂,
      (scalarMode fr Rp Lp Gp Cp).gamma = .ok (.vector gs) ∧
      (scalarMode fr Rp Lp Gp Cp).z0_characteristic = .ok (.vector zs) ∧
      DistributedCircuit.from_media ⟨fr, gs, zs, p⟩ = .ok m₂ ∧
      m₂.R = .vector (fr.w.map (fun _ => Rp)) ∧
      m₂.L = .vector (fr.w.map (fun _ => Lp)) ∧
      m₂.G = .vector (fr.w.map (fun _ => Gp)) ∧
      m₂.C = .vector (fr.w.map (fun _ => Cp)) := by
  have hw := wvec_pos hf
  have hLne : ∀ x ∈ fr.w, x * Lp ≠ 0 := fun x hx => ne_of_gt (mul_pos (hw x hx) hL)
  have hCne : ∀ x ∈ fr.w, x * Cp ≠ 0 := fun x hx => ne_of_gt (mul_pos (hw x hx) hC)
  have hq : ∀ x ∈ fr.w,
      0 ≤ ((Rp : ℂ) + I * (x : ℂ) * (Lp : ℂ)).re ∧
      0 < ((Rp : ℂ) + I * (x : ℂ) * (Lp : ℂ)).im ∧
      0 ≤ ((Gp : ℂ) + I * (x : ℂ) * (Cp : ℂ)).re ∧
      0 < ((Gp : ℂ) + I * (x : ℂ) * (Cp : ℂ)).im := by
    intro x hx
    rw [rlgc_re, rlgc_im, rlgc_re, rlgc_im]
    exact ⟨hR, mul_pos (hw x hx) hL, hG, mul_pos (hw x hx) hC⟩
  refine ⟨_, _,
    DistributedCircuit.ofInit (some fr) p
      (some (.vector (fr.w.map (fun _ => Cp))))
      (some (.vector (fr.w.map (fun _ => Lp))))
      (some (.vector (fr.w.map (fun _ => Rp))))
      (some (.vector (fr.w.map (fun _ => Gp)))),
    gamma_scalar fr Rp Lp Gp Cp hLne hCne,
    z0c_scalar fr Rp Lp Gp Cp hLne hCne, ?_, rfl, rfl, rfl, rfl⟩
  simp only [DistributedCircuit.from_media]
  have hYv : bcastList (fun a b => a / b)
      (fr.w.map (fun x : ℝ => csqrt (((Rp : ℂ) + I * (x : ℂ) * (Lp : ℂ)) *
        ((Gp : ℂ) + I * (x : ℂ) * (Cp : ℂ)))))
      (fr.w.map (fun x : ℝ => csqrt (((Rp : ℂ) + I * (x : ℂ) * (Lp : ℂ)) /
        ((Gp : ℂ) + I * (x : ℂ) * (Cp : ℂ))))) =
      .ok (fr.w.map (fun x : ℝ => (Gp : ℂ) + I * (x : ℂ) * (Cp : ℂ))) := by
    rw [bcastList_eq_len _ (by rw [List.length_map, List.length_map]),
      zipWith_map_same]
    refine congrArg _ (map_congr_mem (fun x hx => ?_))
    obtain ⟨h1, h2, h3, h4⟩ := hq x hx
    exact (roundtrip_core _ _ h1 h2 h3 h4).2
  have hZv : bcastList (fun a b => a * b)
      (fr.w.map (fun x : ℝ => csqrt (((Rp : ℂ) + I * (x : ℂ) * (Lp : ℂ)) *
        ((Gp : ℂ) + I * (x : ℂ) * (Cp : ℂ)))))
      (fr.w.map (fun x : ℝ => csqrt (((Rp : ℂ) + I * (x : ℂ) * (Lp : ℂ)) /
        ((Gp : ℂ) + I * (x : ℂ) * (Cp : ℂ))))) =
      .ok (fr.w.map (fun x : ℝ => (Rp : ℂ) + I * (x : ℂ) * (Lp : ℂ))) := by
    rw [bcastList_eq_len _ (by rw [List.length_map, List.length_map]),
      zipWith_map_same]
    refine congrArg _ (map_congr_mem (fun x hx => ?_))
    obtain ⟨h1, h2, h3, h4⟩ := hq x hx
    exact (roundtrip_core _ _ h1 h2 h3 h4).1
  rw [hYv, ok_bind, hZv, ok_bind]
  have hCv : bcastListR (fun a b => a / b)
      ((fr.w.map (fun x : ℝ => (Gp : ℂ) + I * (x : ℂ) * (Cp : ℂ))).map Complex.im)
      fr.w = .ok (fr.w.map (fun _ => Cp)) := by
    rw [List.map_map]
    have h1 : fr.w.map (Complex.im ∘ fun x : ℝ => (Gp : ℂ) + I * (x : ℂ) * (Cp : ℂ))
        = fr.w.map (fun x => x * Cp) :=
      map_congr_mem (fun x _ => rlgc_im Gp Cp x)
    rw [h1, bcastListR_eq_len _ (by rw [List.length_map]), zipWith_map_left_same]
    refine congrArg _ (map_congr_mem (fun x hx => ?_))
    exact mul_div_cancel_left₀ Cp (ne_of_gt (hw x hx))
  have hLv : bcastListR (fun a b => a / b)
      ((fr.w.map (fun x : ℝ => (Rp : ℂ) + I * (x : ℂ) * (Lp : ℂ))).map Complex.im)
      fr.w = .ok (fr.w.map (fun _ => Lp)) := by
    rw [List.map_map]
    have h1 : fr.w.map (Complex.im ∘ fun x : ℝ => (Rp : ℂ) + I * (x : ℂ) * (Lp : ℂ))
        = fr.w.map (fun x => x * Lp) :=
      map_congr_mem (fun x _ => rlgc_im Rp Lp x)
    rw [h1, bcastListR_eq_len _ (by rw [List.length_map]), zipWith_map_left_same]
    refine congrArg _ (map_congr_mem (fun x hx => ?_))
    exact mul_div_cancel_left₀ Lp (ne_of_gt (hw x hx))
  rw [hCv, ok_bind, hLv, ok_bind]
  have hGv : (fr.w.map (fun x : ℝ => (Gp : ℂ) + I * (x : ℂ) * (Cp : ℂ))).map Complex.re
      = fr.w.map (fun _ => Gp) := by
    rw [List.map_map]
    exact map_congr_mem (fun x _ => rlgc_re Gp Cp x)
  have hRv : (fr.w.map (fun x : ℝ => (Rp : ℂ) + I * (x : ℂ) * (Lp : ℂ))).map Complex.re
      = fr.w.map (fun _ => Rp) := by
    rw [List.map_map]
    exact map_congr_mem (fun x _ => rlgc_re Rp Lp x)
  rw [hGv, hRv]
  rfl

/-- C1 witness: the round-trip theorem applied to a one-point 1 Hz grid
with the default lossless line parameters. -/
theorem C1_param_roundtrip_witness :
    (∀ x ∈ (Frequency.mk [1] "Hz").f, (0 : ℝ) < x) ∧
    (0 : ℝ) ≤ 0 ∧ (0 : ℝ) < 280e-9 ∧ (0 : ℝ) ≤ 0 ∧ (0 : ℝ) < 90e-12 ∧
    (∃ gs zs m₂,
      (scalarMode ⟨[1], "Hz"⟩ 0 280e-9 0 90e-12).gamma = .ok (.vector gs) ∧
      (scalarMode ⟨[1], "Hz"⟩ 0 280e-9 0 90e-12).z0_characteristic = .ok (.vector zs) ∧
      DistributedCircuit.from_media ⟨⟨[1], "Hz"⟩, gs, zs, none⟩ = .ok m₂ ∧
      m₂.R = .vector ((Frequency.mk [1] "Hz").w.map (fun _ => (0 : ℝ))) ∧
      m₂.L = .vector ((Frequency.mk [1] "Hz").w.map (fun _ => (280e-9 : ℝ))) ∧
      m₂.G = .vector ((Frequency.mk [1] "Hz").w.map (fun _ => (0 : ℝ))) ∧
      m₂.C = .vector ((Frequency.mk [1] "Hz").w.map (fun _ => (90e-12 : ℝ)))) := by
  have hf : ∀ x ∈ (Frequency.mk [1] "Hz").f, (0 : ℝ) < x := by
    intro x hx
    rw [List.mem_singleton] at hx
    rw [hx]
    norm_num
  exact ⟨hf, le_refl 0, by norm_num, le_refl 0, by norm_num,
    C1_param_roundtrip ⟨[1], "Hz"⟩ 0 280e-9 0 90e-12 none hf
      (le_refl 0) (by norm_num) (le_refl 0) (by norm_num)⟩

/-- C1 counterexample: over the DC-free grid `{1 Hz}` with scalar
parameters `R = G = -3`, `L = C = 2/pi`, the per-frequency impedance and
admittance are both `-3+4i`; the principal square root sends their
product to `3-4i`, so the inverse constructor recovers `G = 3`, not the
original `-3` — the claim fails without a sign restriction on `R`, `G`. -/
theorem C1_counterexample :
    ∃ gs zs m₂,
      (scalarMode ⟨[1], "Hz"⟩ (-3) (2 / Real.pi) (-3) (2 / Real.pi)).gamma
        = .ok (.vector gs) ∧
      (scalarMode ⟨[1], "Hz"⟩ (-3) (2 / Real.pi) (-3) (2 / Real.pi)).z0_characteristic
        = .ok (.vector zs) ∧
      DistributedCircuit.from_media ⟨⟨[1], "Hz"⟩, gs, zs, none⟩ = .ok m₂ ∧
      m₂.G = .vector [3] ∧ (3 : ℝ) ≠ -3 := by
  have hpi := Real.pi_ne_zero
  have hwval : (Frequency.mk [1] "Hz").w = [2 * Real.pi * 1] := rfl
  have hprod : (2 * Real.pi * 1) * (2 / Real.pi) = 4 := by
    field_simp
    ring
  have hLne : ∀ x ∈ (Frequency.mk [1] "Hz").w, x * (2 / Real.pi) ≠ 0 := by
    intro x hx
    rw [hwval, List.mem_singleton] at hx
    rw [hx, hprod]
    norm_num
  have hA : ((-3 : ℝ) : ℂ) + I * ((2 * Real.pi * 1 : ℝ) : ℂ) * ((2 / Real.pi : ℝ) : ℂ)
      = -3 + 4 * I := by
    apply Complex.ext
    · rw [rlgc_re]
      simp [Complex.add_re, Complex.mul_re, Complex.I_re, Complex.I_im]
    · rw [rlgc_im, hprod]
      simp [Complex.add_im, Complex.mul_im, Complex.I_re, Complex.I_im]
  have hcs1 : csqrt ((-3 + 4 * I) * (-3 + 4 * I)) = 3 - 4 * I := by
    apply csqrt_unique
    · ring
    · left
      simp [Complex.sub_re, Complex.mul_re, Complex.I_re, Complex.I_im]
  have hne : (-3 + 4 * I : ℂ) ≠ 0 := by
    intro h
    rw [Complex.ext_iff] at h
    have := h.2
    simp [Complex.add_im, Complex.mul_im, Complex.I_im, Complex.I_re] at this
  have hcs2 : csqrt ((-3 + 4 * I) / (-3 + 4 * I)) = 1 := by
    rw [div_self hne]
    apply csqrt_unique
    · rw [one_mul]
    · left
      simp [Complex.one_re]
  have hgs : (scalarMode ⟨[1], "Hz"⟩ (-3) (2 / Real.pi) (-3) (2 / Real.pi)).gamma
      = .ok (.vector [(3 : ℂ) - 4 * I]) := by
    rw [gamma_scalar _ _ _ _ _ hLne hLne, hwval]
    simp only [List.map_cons, List.map_nil]
    rw [hA, hcs1]
  have hzs : (scalarMode ⟨[1], "Hz"⟩ (-3) (2 / Real.pi) (-3) (2 / Real.pi)).z0_characteristic
      = .ok (.vector [(1 : ℂ)]) := by
    rw [z0c_scalar _ _ _ _ _ hLne hLne, hwval]
    simp only [List.map_cons, List.map_nil]
    rw [hA, hcs2]
  refine ⟨_, _,
    DistributedCircuit.ofInit (some ⟨[1], "Hz"⟩) none
      (some (.vector [(-4) / (2 * Real.pi * 1)]))
      (some (.vector [(-4) / (2 * Real.pi * 1)]))
      (some (.vector [(3 : ℝ)])) (some (.vector [(3 : ℝ)])),
    hgs, hzs, ?_, rfl, by norm_num⟩
  simp only [DistributedCircuit.from_media]
  rw [bcastList_eq_len _ (by rfl), ok_bind, bcastList_eq_len _ (by rfl), ok_bind,
    bcastListR_eq_len _ (by rfl), ok_bind, bcastListR_eq_len _ (by rfl), ok_bind]
  norm_num [div_one, mul_one, Complex.sub_re, Complex.sub_im, Complex.mul_re,
    Complex.mul_im, Complex.I_re, Complex.I_im, List.zipWith]
  rfl

/-- scalar-array `bcastOp` maps the scalar over the array. -/
lemma bcastOp_scalar_vec (op : ℂ → ℂ → ℂ) (a : ℂ) (bs : List ℂ) :
    bcastOp op (.scalar a) (.vector bs) = .ok (.vector (bs.map (op a))) := rfl

/-- the raw distributed impedance of a mode whose four parameters are
arrays of grid length. -/
lemma Zraw_vector (fr : Frequency) (p : Option CVal) (Cv Lv Rv Gv : List ℝ)
    (hL : Lv.length = fr.w.length) (hR : Rv.length = fr.w.length) :
    (DistributedCircuit.ofInit (some fr) p (some (.vector Cv)) (some (.vector Lv))
      (some (.vector Rv)) (some (.vector Gv))).Zraw =
    .ok (.vector (List.zipWith (fun a b => a + b) (Rv.map (fun x : ℝ => (x : ℂ)))
      (List.zipWith (fun a b => a * b)
        ((fr.w.map (fun x : ℝ => (x : ℂ))).map (fun b => I * b))
        (Lv.map (fun x : ℝ => (x : ℂ)))))) := by
  have h0 : (DistributedCircuit.ofInit (some fr) p (some (.vector Cv)) (some (.vector Lv))
      (some (.vector Rv)) (some (.vector Gv))).wvec = .ok fr.w := rfl
  simp only [DistributedCircuit.Zraw]
  rw [h0, ok_bind, bcastOp_scalar_vec, ok_bind]
  have hLc : (DistributedCircuit.ofInit (some fr) p (some (.vector Cv)) (some (.vector Lv))
      (some (.vector Rv)) (some (.vector Gv))).L.toC = .vector (Lv.map (fun x : ℝ => (x : ℂ))) := rfl
  have hRc : (DistributedCircuit.ofInit (some fr) p (some (.vector Cv)) (some (.vector Lv))
      (some (.vector Rv)) (some (.vector Gv))).R.toC = .vector (Rv.map (fun x : ℝ => (x : ℂ))) := rfl
  rw [hLc, hRc, bcastOp_vec_vec,
    bcastList_eq_len _ (by rw [List.length_map, List.length_map, List.length_map, hL]),
    map_ok, ok_bind, bcastOp_vec_vec,
    bcastList_eq_len _ (by
      rw [List.length_map, List.length_zipWith, List.length_map, List.length_map,
        List.length_map, hL, hR, min_self]),
    map_ok]

/-- the raw distributed admittance of a mode whose four parameters are
arrays of grid length. -/
lemma Yraw_vector (fr : Frequency) (p : Option CVal) (Cv Lv Rv Gv : List ℝ)
    (hC : Cv.length = fr.w.length) (hG : Gv.length = fr.w.length) :
    (DistributedCircuit.ofInit (some fr) p (some (.vector Cv)) (some (.vector Lv))
      (some (.vector Rv)) (some (.vector Gv))).Yraw =
    .ok (.vector (List.zipWith (fun a b => a + b) (Gv.map (fun x : ℝ => (x : ℂ)))
      (List.zipWith (fun a b => a * b)
        ((fr.w.map (fun x : ℝ => (x : ℂ))).map (fun b => I * b))
        (Cv.map (fun x : ℝ => (x : ℂ)))))) := by
  have h0 : (DistributedCircuit.ofInit (some fr) p (some (.vector Cv)) (some (.vector Lv))
      (some (.vector Rv)) (some (.vector Gv))).wvec = .ok fr.w := rfl
  simp only [DistributedCircuit.Yraw]
  rw [h0, ok_bind, bcastOp_scalar_vec, ok_bind]
  have hCc : (DistributedCircuit.ofInit (some fr) p (some (.vector Cv)) (some (.vector Lv))
      (some (.vector Rv)) (some (.vector Gv))).C.toC = .vector (Cv.map (fun x : ℝ => (x : ℂ))) := rfl
  have hGc : (DistributedCircuit.ofInit (some fr) p (some (.vector Cv)) (some (.vector Lv))
      (some (.vector Rv)) (some (.vector Gv))).G.toC = .vector (Gv.map (fun x : ℝ => (x : ℂ))) := rfl
  rw [hCc, hGc, bcastOp_vec_vec,
    bcastList_eq_len _ (by rw [List.length_map, List.length_map, List.length_map, hC]),
    map_ok, ok_bind, bcastOp_vec_vec,
    bcastList_eq_len _ (by
      rw [List.length_map, List.length_zipWith, List.length_map, List.length_map,
        List.length_map, hC, hG, min_self]),
    map_ok]

/-- reassembling a complex sample from its recovered distributed
parameters: `re(z) + j*w*(im(z)/w) = z` away from DC. -/
lemma recompose (z : ℂ) (x : ℝ) (hx : x ≠ 0) :
    ((z.re : ℝ) : ℂ) + I * (x : ℂ) * ((z.im / x : ℝ) : ℂ) = z := by
  apply Complex.ext
  · rw [rlgc_re]
  · rw [rlgc_im, mul_comm, div_mul_cancel₀ _ hx]

/-- C2 (amended): for every pair of complex N-vectors `(gamma, z0)` over
a DC-free grid such that, at every sample, `gamma*z0` and `gamma/z0`
are not purely real (so the degeneracy guard never fires) and both
`gamma` and `z0` lie in the principal half plane of the square root
(positive real part, or zero real part with nonnegative imaginary
part), the mode built by `from_media` reproduces exactly that `gamma`
vector and that `z0` vector when its own `gamma` and
`z0_characteristic` are read. -/
theorem C2_wave_roundtrip (fr : Frequency) (gs zs : List ℂ) (p : Option CVal)
    (hg : gs.length = fr.npoints) (hz : zs.length = fr.npoints)
    (hf : ∀ x ∈ fr.f, x ≠ 0)
    (hcond : ∀ t ∈ gs.zip zs,
      (t.1 * t.2).im ≠ 0 ∧ (t.1 / t.2).im ≠ 0 ∧
      (0 < t.1.re ∨ (t.1.re = 0 ∧ 0 ≤ t.1.im)) ∧
      (0 < t.2.re ∨ (t.2.re = 0 ∧ 0 ≤ t.2.im))) :
    ∃ m₂, DistributedCircuit.from_media ⟨fr, gs, zs, p⟩ = .ok m₂ ∧
      m₂.gamma = .ok (.vector gs) ∧
      m₂.z0_characteristic = .ok (.vector zs) := by
  have lw : fr.w.length = fr.npoints := by
    rw [Frequency.w, List.length_map]
    rfl
  have hw0 : ∀ x ∈ fr.w, x ≠ 0 := by
    intro x hx
    simp only [Frequency.w, List.mem_map] at hx
    obtain ⟨y, hy, rfl⟩ := hx
    exact mul_ne_zero (mul_ne_zero two_ne_zero Real.pi_ne_zero) (hf y hy)
  set us := fr.w.zip (gs.zip zs) with hus
  have hts : (gs.zip zs).length = fr.npoints := by
    rw [List.length_zip, hg, hz, min_self]
  have hwseq : us.map Prod.fst = fr.w :=
    List.map_fst_zip _ _ (by rw [lw, hts])
  have hsnd : us.map Prod.snd = gs.zip zs :=
    List.map_snd_zip _ _ (by rw [lw, hts])
  have h1 : (gs.zip zs).map Prod.fst = gs :=
    List.map_fst_zip _ _ (by rw [hg, hz])
  have h2 : (gs.zip zs).map Prod.snd = zs :=
    List.map_snd_zip _ _ (by rw [hg, hz])
  have hgseq : us.map (fun u => u.2.1) = gs := by
    rw [show (fun u : ℝ × ℂ × ℂ => u.2.1) = (Prod.fst ∘ Prod.snd) from rfl,
      ← List.map_map, hsnd, h1]
  have hzseq : us.map (fun u => u.2.2) = zs := by
    rw [show (fun u : ℝ × ℂ × ℂ => u.2.2) = (Prod.snd ∘ Prod.snd) from rfl,
      ← List.map_map, hsnd, h2]
  have lus : us.length = fr.npoints := by
    rw [hus, List.length_zip, lw, hts, min_self]
  have hum : ∀ u ∈ us, u.1 ∈ fr.w ∧ u.2 ∈ gs.zip zs := by
    intro u hu
    rw [hus] at hu
    obtain ⟨x, t⟩ := u
    exact List.of_mem_zip hu
  have hz0ne : ∀ u ∈ us, u.2.2 ≠ 0 := by
    intro u hu h0
    have h := (hcond u.2 ((hum u hu).2)).2.1
    rw [h0, div_zero] at h
    exact h Complex.zero_im
  have hγne : ∀ u ∈ us, u.2.1 ≠ 0 := by
    intro u hu h0
    have h := (hcond u.2 ((hum u hu).2)).1
    rw [h0, zero_mul] at h
    exact h Complex.zero_im
  refine ⟨DistributedCircuit.ofInit (some fr) p
      (some (.vector (us.map (fun u => (u.2.1 / u.2.2).im / u.1))))
      (some (.vector (us.map (fun u => (u.2.1 * u.2.2).im / u.1))))
      (some (.vector (us.map (fun u => (u.2.1 * u.2.2).re))))
      (some (.vector (us.map (fun u => (u.2.1 / u.2.2).re)))), ?_, ?_, ?_⟩
  · simp only [DistributedCircuit.from_media]
    rw [← hgseq, ← hzseq, ← hwseq]
    rw [bcastList_eq_len _ (by rw [List.length_map, List.length_map]),
      zipWith_map_same, ok_bind,
      bcastList_eq_len _ (by rw [List.length_map, List.length_map]),
      zipWith_map_same, ok_bind]
    simp only [List.map_map]
    rw [bcastListR_eq_len _ (by rw [List.length_map, List.length_map]),
      zipWith_map_same, ok_bind,
      bcastListR_eq_len _ (by rw [List.length_map, List.length_map]),
      zipWith_map_same, ok_bind]
    rfl
  · rw [← hgseq]
    have hZr := Zraw_vector fr p
      (us.map (fun u => (u.2.1 / u.2.2).im / u.1))
      (us.map (fun u => (u.2.1 * u.2.2).im / u.1))
      (us.map (fun u => (u.2.1 * u.2.2).re))
      (us.map (fun u => (u.2.1 / u.2.2).re))
      (by rw [List.length_map, lus, lw]) (by rw [List.length_map, lus, lw])
    rw [← hwseq] at hZr
    simp only [List.map_map] at hZr
    rw [zipWith_map_same, zipWith_map_same] at hZr
    simp only [Function.comp_apply] at hZr
    have hYr := Yraw_vector fr p
      (us.map (fun u => (u.2.1 / u.2.2).im / u.1))
      (us.map (fun u => (u.2.1 * u.2.2).im / u.1))
      (us.map (fun u => (u.2.1 * u.2.2).re))
      (us.map (fun u => (u.2.1 / u.2.2).re))
      (by rw [List.length_map, lus, lw]) (by rw [List.length_map, lus, lw])
    rw [← hwseq] at hYr
    simp only [List.map_map] at hYr
    rw [zipWith_map_same, zipWith_map_same] at hYr
    simp only [Function.comp_apply] at hYr
    have heZ : us.map (fun u : ℝ × ℂ × ℂ =>
        (((u.2.1 * u.2.2).re : ℝ) : ℂ) + I * (u.1 : ℂ) * (((u.2.1 * u.2.2).im / u.1 : ℝ) : ℂ))
        = us.map (fun u => u.2.1 * u.2.2) :=
      map_congr_mem (fun u hu => recompose _ _ (hw0 _ ((hum u hu).1)))
    have heY : us.map (fun u : ℝ × ℂ × ℂ =>
        (((u.2.1 / u.2.2).re : ℝ) : ℂ) + I * (u.1 : ℂ) * (((u.2.1 / u.2.2).im / u.1 : ℝ) : ℂ))
        = us.map (fun u => u.2.1 / u.2.2) :=
      map_congr_mem (fun u hu => recompose _ _ (hw0 _ ((hum u hu).1)))
    have hZ : (DistributedCircuit.ofInit (some fr) p
        (some (.vector (us.map (fun u => (u.2.1 / u.2.2).im / u.1))))
        (some (.vector (us.map (fun u => (u.2.1 * u.2.2).im / u.1))))
        (some (.vector (us.map (fun u => (u.2.1 * u.2.2).re))))
        (some (.vector (us.map (fun u => (u.2.1 / u.2.2).re))))).Z
        = .ok (.vector (us.map (fun u => u.2.1 * u.2.2))) := by
      show Except.map nudgeC _ = _
      rw [hZr, map_ok]
      show Except.ok (CVal.vector (List.map nudgeAt _)) = _
      rw [heZ, map_nudge_id]
      intro z hzz
      obtain ⟨u, hu, rfl⟩ := List.mem_map.mp hzz
      exact (hcond u.2 ((hum u hu).2)).1
    have hY : (DistributedCircuit.ofInit (some fr) p
        (some (.vector (us.map (fun u => (u.2.1 / u.2.2).im / u.1))))
        (some (.vector (us.map (fun u => (u.2.1 * u.2.2).im / u.1))))
        (some (.vector (us.map (fun u => (u.2.1 * u.2.2).re))))
        (some (.vector (us.map (fun u => (u.2.1 / u.2.2).re))))).Y
        = .ok (.vector (us.map (fun u => u.2.1 / u.2.2))) := by
      show Except.map nudgeC _ = _
      rw [hYr, map_ok]
      show Except.ok (CVal.vector (List.map nudgeAt _)) = _
      rw [heY, map_nudge_id]
      intro z hzz
      obtain ⟨u, hu, rfl⟩ := List.mem_map.mp hzz
      exact (hcond u.2 ((hum u hu).2)).2.1
    simp only [DistributedCircuit.gamma]
    rw [hZ, ok_bind, hY, ok_bind, bcastOp_vec_vec,
      bcastList_eq_len _ (by rw [List.length_map, List.length_map]),
      map_ok, ok_bind, zipWith_map_same]
    show Except.ok (CVal.vector (List.map csqrt _)) = _
    rw [List.map_map]
    refine congrArg _ (congrArg _ (map_congr_mem (fun u hu => ?_)))
    show csqrt ((u.2.1 * u.2.2) * (u.2.1 / u.2.2)) = u.2.1
    have halg : (u.2.1 * u.2.2) * (u.2.1 / u.2.2)
        = (u.2.1 * u.2.1) * (u.2.2 / u.2.2) := by ring
    rw [halg, div_self (hz0ne u hu), mul_one]
    exact csqrt_unique _ _ rfl ((hcond u.2 ((hum u hu).2)).2.2.1)
  · rw [← hzseq]
    have hZr := Zraw_vector fr p
      (us.map (fun u => (u.2.1 / u.2.2).im / u.1))
      (us.map (fun u => (u.2.1 * u.2.2).im / u.1))
      (us.map (fun u => (u.2.1 * u.2.2).re))
      (us.map (fun u => (u.2.1 / u.2.2).re))
      (by rw [List.length_map, lus, lw]) (by rw [List.length_map, lus, lw])
    rw [← hwseq] at hZr
    simp only [List.map_map] at hZr
    rw [zipWith_map_same, zipWith_map_same] at hZr
    simp only [Function.comp_apply] at hZr
    have hYr := Yraw_vector fr p
      (us.map (fun u => (u.2.1 / u.2.2).im / u.1))
      (us.map (fun u => (u.2.1 * u.2.2).im / u.1))
      (us.map (fun u => (u.2.1 * u.2.2).re))
      (us.map (fun u => (u.2.1 / u.2.2).re))
      (by rw [List.length_map, lus, lw]) (by rw [List.length_map, lus, lw])
    rw [← hwseq] at hYr
    simp only [List.map_map] at hYr
    rw [zipWith_map_same, zipWith_map_same] at hYr
    simp only [Function.comp_apply] at hYr
    have heZ : us.map (fun u : ℝ × ℂ × ℂ =>
        (((u.2.1 * u.2.2).re : ℝ) : ℂ) + I * (u.1 : ℂ) * (((u.2.1 * u.2.2).im / u.1 : ℝ) : ℂ))
        = us.map (fun u => u.2.1 * u.2.2) :=
      map_congr_mem (fun u hu => recompose _ _ (hw0 _ ((hum u hu).1)))
    have heY : us.map (fun u : ℝ × ℂ × ℂ =>
        (((u.2.1 / u.2.2).re : ℝ) : ℂ) + I * (u.1 : ℂ) * (((u.2.1 / u.2.2).im / u.1 : ℝ) : ℂ))
        = us.map (fun u => u.2.1 / u.2.2) :=
      map_congr_mem (fun u hu => recompose _ _ (hw0 _ ((hum u hu).1)))
    have hZ : (DistributedCircuit.ofInit (some fr) p
        (some (.vector (us.map (fun u => (u.2.1 / u.2.2).im / u.1))))
        (some (.vector (us.map (fun u => (u.2.1 * u.2.2).im / u.1))))
        (some (.vector (us.map (fun u => (u.2.1 * u.2.2).re))))
        (some (.vector (us.map (fun u => (u.2.1 / u.2.2).re))))).Z
        = .ok (.vector (us.map (fun u => u.2.1 * u.2.2))) := by
      show Except.map nudgeC _ = _
      rw [hZr, map_ok]
      show Except.ok (CVal.vector (List.map nudgeAt _)) = _
      rw [heZ, map_nudge_id]
      intro z hzz
      obtain ⟨u, hu, rfl⟩ := List.mem_map.mp hzz
      exact (hcond u.2 ((hum u hu).2)).1
    have hY : (DistributedCircuit.ofInit (some fr) p
        (some (.vector (us.map (fun u => (u.2.1 / u.2.2).im / u.1))))
        (some (.vector (us.map (fun u => (u.2.1 * u.2.2).im / u.1))))
        (some (.vector (us.map (fun u => (u.2.1 * u.2.2).re))))
        (some (.vector (us.map (fun u => (u.2.1 / u.2.2).re))))).Y
        = .ok (.vector (us.map (fun u => u.2.1 / u.2.2))) := by
      show Except.map nudgeC _ = _
      rw [hYr, map_ok]
      show Except.ok (CVal.vector (List.map nudgeAt _)) = _
      rw [heY, map_nudge_id]
      intro z hzz
      obtain ⟨u, hu, rfl⟩ := List.mem_map.mp hzz
      exact (hcond u.2 ((hum u hu).2)).2.1
    simp only [DistributedCircuit.z0_characteristic]
    rw [hZ, ok_bind, hY, ok_bind, bcastOp_vec_vec,
      bcastList_eq_len _ (by rw [List.length_map, List.length_map]),
      map_ok, ok_bind, zipWith_map_same]
    show Except.ok (CVal.vector (List.map csqrt _)) = _
    rw [List.map_map]
    refine congrArg _ (congrArg _ (map_congr_mem (fun u hu => ?_)))
    show csqrt ((u.2.1 * u.2.2) / (u.2.1 / u.2.2)) = u.2.2
    have halg : (u.2.1 * u.2.2) / (u.2.1 / u.2.2)
        = (u.2.2 * u.2.2) * (u.2.1 / u.2.1) := by
      rw [div_eq_mul_inv (u.2.1 * u.2.2), inv_div]
      ring
    rw [halg, div_self (hγne u hu), mul_one]
    exact csqrt_unique _ _ rfl ((hcond u.2 ((hum u hu).2)).2.2.2)

/-- C2 witness: the wave-descriptor round trip applied to the one-point
1 Hz grid with `gamma = 1+i` and `z0 = 1`. -/
theorem C2_wave_roundtrip_witness :
    ([(1 : ℂ) + I].length = (Frequency.mk [1] "Hz").npoints) ∧
    ([(1 : ℂ)].length = (Frequency.mk [1] "Hz").npoints) ∧
    (∀ x ∈ (Frequency.mk [1] "Hz").f, x ≠ 0) ∧
    (∀ t ∈ [(1 : ℂ) + I].zip [(1 : ℂ)],
      (t.1 * t.2).im ≠ 0 ∧ (t.1 / t.2).im ≠ 0 ∧
      (0 < t.1.re ∨ (t.1.re = 0 ∧ 0 ≤ t.1.im)) ∧
      (0 < t.2.re ∨ (t.2.re = 0 ∧ 0 ≤ t.2.im))) ∧
    (∃ m₂, DistributedCircuit.from_media
        ⟨⟨[1], "Hz"⟩, [(1 : ℂ) + I], [(1 : ℂ)], none⟩ = .ok m₂ ∧
      m₂.gamma = .ok (.vector [(1 : ℂ) + I]) ∧
      m₂.z0_characteristic = .ok (.vector [(1 : ℂ)])) := by
  have hf : ∀ x ∈ (Frequency.mk [1] "Hz").f, x ≠ 0 := by
    intro x hx
    rw [List.mem_singleton] at hx
    rw [hx]
    norm_num
  have hcond : ∀ t ∈ [(1 : ℂ) + I].zip [(1 : ℂ)],
      (t.1 * t.2).im ≠ 0 ∧ (t.1 / t.2).im ≠ 0 ∧
      (0 < t.1.re ∨ (t.1.re = 0 ∧ 0 ≤ t.1.im)) ∧
      (0 < t.2.re ∨ (t.2.re = 0 ∧ 0 ≤ t.2.im)) := by
    intro t ht
    rw [show [(1 : ℂ) + I].zip [(1 : ℂ)] = [((1 : ℂ) + I, (1 : ℂ))] from rfl,
      List.mem_singleton] at ht
    rw [ht]
    norm_num [Complex.add_im, Complex.add_re, Complex.I_im, Complex.I_re,
      Complex.one_im, Complex.one_re, Complex.mul_im, Complex.mul_re]
  exact ⟨rfl, rfl, hf, hcond,
    C2_wave_roundtrip ⟨[1], "Hz"⟩ [(1 : ℂ) + I] [(1 : ℂ)] none rfl rfl hf hcond⟩

/-- C2 counterexample: over the DC-free grid `{1 Hz}` with
`gamma = -3+4i` (negative real part) and `z0 = 1`, the reconstructed
mode reads back `gamma = 3-4i`, not `-3+4i`: the principal branch of
the square root flips the sign, so the claim is false for arbitrary
complex vectors. -/
theorem C2_counterexample :
    ∃ m₂, DistributedCircuit.from_media
        ⟨⟨[1], "Hz"⟩, [(-3 : ℂ) + 4 * I], [(1 : ℂ)], none⟩ = .ok m₂ ∧
      m₂.gamma = .ok (.vector [(3 : ℂ) - 4 * I]) ∧
      ((3 : ℂ) - 4 * I ≠ -3 + 4 * I) := by
  have hpi : (2 * Real.pi * 1) ≠ 0 := by
    have := Real.pi_ne_zero
    norm_num [this]
  refine ⟨DistributedCircuit.ofInit (some ⟨[1], "Hz"⟩) none
      (some (.vector [4 / (2 * Real.pi * 1)]))
      (some (.vector [4 / (2 * Real.pi * 1)]))
      (some (.vector [(-3 : ℝ)])) (some (.vector [(-3 : ℝ)])), ?_, ?_, ?_⟩
  · simp only [DistributedCircuit.from_media]
    rw [bcastList_eq_len _ (by rfl), ok_bind, bcastList_eq_len _ (by rfl), ok_bind,
      bcastListR_eq_len _ (by rfl), ok_bind, bcastListR_eq_len _ (by rfl), ok_bind]
    norm_num [div_one, mul_one, Complex.add_re, Complex.add_im, Complex.mul_re,
      Complex.mul_im, Complex.I_re, Complex.I_im, List.zipWith]
    rfl
  · have helt : ((-3 : ℝ) : ℂ) + I * ((2 * Real.pi * 1 : ℝ) : ℂ) *
        ((4 / (2 * Real.pi * 1) : ℝ) : ℂ) = -3 + 4 * I := by
      apply Complex.ext
      · rw [rlgc_re]
        simp [Complex.add_re, Complex.mul_re, Complex.I_re, Complex.I_im]
      · rw [rlgc_im, mul_div_cancel₀ _ hpi]
        simp [Complex.add_im, Complex.mul_im, Complex.I_re, Complex.I_im]
    have hZr := Zraw_vector ⟨[1], "Hz"⟩ none [4 / (2 * Real.pi * 1)]
      [4 / (2 * Real.pi * 1)] [(-3 : ℝ)] [(-3 : ℝ)] (by rfl) (by rfl)
    have hform : (List.zipWith (fun a b => a + b)
        ([(-3 : ℝ)].map (fun x : ℝ => (x : ℂ)))
        (List.zipWith (fun a b => a * b)
          (((Frequency.mk [1] "Hz").w.map (fun x : ℝ => (x : ℂ))).map (fun b => I * b))
          ([4 / (2 * Real.pi * 1)].map (fun x : ℝ => (x : ℂ)))))
        = [((-3 : ℝ) : ℂ) + I * ((2 * Real.pi * 1 : ℝ) : ℂ) *
            ((4 / (2 * Real.pi * 1) : ℝ) : ℂ)] := rfl
    rw [hform, helt] at hZr
    have hnim : ((-3 : ℂ) + 4 * I).im ≠ 0 := by
      simp [Complex.add_im, Complex.mul_im, Complex.I_im, Complex.I_re]
    have hZ : (DistributedCircuit.ofInit (some ⟨[1], "Hz"⟩) none
        (some (.vector [4 / (2 * Real.pi * 1)]))
        (some (.vector [4 / (2 * Real.pi * 1)]))
        (some (.vector [(-3 : ℝ)])) (some (.vector [(-3 : ℝ)]))).Z
        = .ok (.vector [(-3 : ℂ) + 4 * I]) := by
      show Except.map nudgeC _ = _
      rw [hZr, map_ok]
      show Except.ok (CVal.vector ([(-3 : ℂ) + 4 * I].map nudgeAt)) = _
      rw [map_nudge_id]
      intro z hzz
      rw [List.mem_singleton] at hzz
      rw [hzz]
      exact hnim
    have hYr := Yraw_vector ⟨[1], "Hz"⟩ none [4 / (2 * Real.pi * 1)]
      [4 / (2 * Real.pi * 1)] [(-3 : ℝ)] [(-3 : ℝ)] (by rfl) (by rfl)
    rw [hform, helt] at hYr
    have hY : (DistributedCircuit.ofInit (some ⟨[1], "Hz"⟩) none
        (some (.vector [4 / (2 * Real.pi * 1)]))
        (some (.vector [4 / (2 * Real.pi * 1)]))
        (some (.vector [(-3 : ℝ)])) (some (.vector [(-3 : ℝ)]))).Y
        = .ok (.vector [(-3 : ℂ) + 4 * I]) := by
      show Except.map nudgeC _ = _
      rw [hYr, map_ok]
      show Except.ok (CVal.vector ([(-3 : ℂ) + 4 * I].map nudgeAt)) = _
      rw [map_nudge_id]
      intro z hzz
      rw [List.mem_singleton] at hzz
      rw [hzz]
      exact hnim
    simp only [DistributedCircuit.gamma]
    rw [hZ, ok_bind, hY, ok_bind, bcastOp_vec_vec, bcastList_eq_len _ (by rfl),
      map_ok, ok_bind]
    show Except.ok (CVal.vector [csqrt (((-3 : ℂ) + 4 * I) * ((-3 : ℂ) + 4 * I))]) = _
    have hcs : csqrt (((-3 : ℂ) + 4 * I) * ((-3 : ℂ) + 4 * I)) = 3 - 4 * I := by
      apply csqrt_unique
      · ring
      · left
        simp [Complex.sub_re, Complex.mul_re, Complex.I_re, Complex.I_im]
    rw [hcs]
  · intro h
    rw [Complex.ext_iff] at h
    have := h.1
    norm_num [Complex.sub_re, Complex.add_re, Complex.mul_re,
      Complex.I_re, Complex.I_im] at this

/-- C3: for every external media with sample-aligned `gamma` and `z0`,
`from_media` builds a mode whose recovered parameter vectors satisfy,
at every sample `k`, `G = re(gamma/z0)`, `C = im(gamma/z0)/w`,
`R = re(gamma*z0)`, `L = im(gamma*z0)/w`, and whose port impedance and
grid are passed through unchanged from the source media. -/
theorem C3_inverse_formulas (md : RawMedia)
    (h1 : md.gamma.length = md.frequency.npoints)
    (h2 : md.z0.length = md.frequency.npoints) :
    ∃ m₂, DistributedCircuit.from_media md = .ok m₂ ∧
      m₂.z0_port = md.z0_port ∧
      m₂.frequency = some md.frequency ∧
      ∃ Gv Cv Rv Lv,
        m₂.G = .vector Gv ∧ m₂.C = .vector Cv ∧
        m₂.R = .vector Rv ∧ m₂.L = .vector Lv ∧
        Gv.length = md.frequency.npoints ∧ Cv.length = md.frequency.npoints ∧
        Rv.length = md.frequency.npoints ∧ Lv.length = md.frequency.npoints ∧
        (∀ k, k < md.frequency.npoints →
          Gv.getD k 0 = ((md.gamma.getD k 0) / (md.z0.getD k 0)).re ∧
          Cv.getD k 0 = ((md.gamma.getD k 0) / (md.z0.getD k 0)).im
            / (md.frequency.w.getD k 0) ∧
          Rv.getD k 0 = ((md.gamma.getD k 0) * (md.z0.getD k 0)).re ∧
          Lv.getD k 0 = ((md.gamma.getD k 0) * (md.z0.getD k 0)).im
            / (md.frequency.w.getD k 0)) := by
  obtain ⟨fr, gs, zs, p⟩ := md
  dsimp only at h1 h2 ⊢
  have lw : fr.w.length = fr.npoints := by
    rw [Frequency.w, List.length_map]
    rfl
  have hYlen : (List.zipWith (fun a b => a / b) gs zs).length = fr.npoints := by
    rw [List.length_zipWith, h1, h2, min_self]
  have hZlen : (List.zipWith (fun a b => a * b) gs zs).length = fr.npoints := by
    rw [List.length_zipWith, h1, h2, min_self]
  refine ⟨DistributedCircuit.ofInit (some fr) p
      (some (.vector (List.zipWith (fun a b => a / b)
        ((List.zipWith (fun a b => a / b) gs zs).map Complex.im) fr.w)))
      (some (.vector (List.zipWith (fun a b => a / b)
        ((List.zipWith (fun a b => a * b) gs zs).map Complex.im) fr.w)))
      (some (.vector ((List.zipWith (fun a b => a * b) gs zs).map Complex.re)))
      (some (.vector ((List.zipWith (fun a b => a / b) gs zs).map Complex.re))),
    ?_, rfl, rfl, _, _, _, _, rfl, rfl, rfl, rfl, ?_, ?_, ?_, ?_, ?_⟩
  · simp only [DistributedCircuit.from_media]
    rw [bcastList_eq_len _ (h1.trans h2.symm), ok_bind,
      bcastList_eq_len _ (h1.trans h2.symm), ok_bind,
      bcastListR_eq_len _ (by rw [List.length_map, hYlen, lw]), ok_bind,
      bcastListR_eq_len _ (by rw [List.length_map, hZlen, lw]), ok_bind]
    rfl
  · rw [List.length_map, hYlen]
  · rw [List.length_zipWith, List.length_map, hYlen, lw, min_self]
  · rw [List.length_map, hZlen]
  · rw [List.length_zipWith, List.length_map, hZlen, lw, min_self]
  · intro k hk
    have hkg : k < gs.length := by omega
    have hkz : k < zs.length := by omega
    have hkw : k < fr.w.length := by omega
    have hkY : k < (List.zipWith (fun a b => a / b) gs zs).length := by omega
    have hkZ : k < (List.zipWith (fun a b => a * b) gs zs).length := by omega
    refine ⟨?_, ?_, ?_, ?_⟩
    · rw [List.getD_eq_getElem _ _ (by rw [List.length_map]; omega),
        List.getElem_map, List.getElem_zipWith,
        List.getD_eq_getElem _ _ hkg, List.getD_eq_getElem _ _ hkz]
    · rw [List.getD_eq_getElem _ _
          (by rw [List.length_zipWith, List.length_map]; omega),
        List.getElem_zipWith, List.getElem_map, List.getElem_zipWith,
        List.getD_eq_getElem _ _ hkg, List.getD_eq_getElem _ _ hkz,
        List.getD_eq_getElem _ _ hkw]
    · rw [List.getD_eq_getElem _ _ (by rw [List.length_map]; omega),
        List.getElem_map, List.getElem_zipWith,
        List.getD_eq_getElem _ _ hkg, List.getD_eq_getElem _ _ hkz]
    · rw [List.getD_eq_getElem _ _
          (by rw [List.length_zipWith, List.length_map]; omega),
        List.getElem_zipWith, List.getElem_map, List.getElem_zipWith,
        List.getD_eq_getElem _ _ hkg, List.getD_eq_getElem _ _ hkz,
        List.getD_eq_getElem _ _ hkw]

/-- C3 witness: the inverse-construction formulas at the one-point grid
with `gamma = i`, `z0 = 1`. -/
theorem C3_inverse_formulas_witness :
    ((RawMedia.mk ⟨[1], "Hz"⟩ [I] [(1 : ℂ)] none).gamma.length
      = (RawMedia.mk ⟨[1], "Hz"⟩ [I] [(1 : ℂ)] none).frequency.npoints) ∧
    ((RawMedia.mk ⟨[1], "Hz"⟩ [I] [(1 : ℂ)] none).z0.length
      = (RawMedia.mk ⟨[1], "Hz"⟩ [I] [(1 : ℂ)] none).frequency.npoints) ∧
    (∃ m₂, DistributedCircuit.from_media
        (RawMedia.mk ⟨[1], "Hz"⟩ [I] [(1 : ℂ)] none) = .ok m₂ ∧
      m₂.z0_port = (RawMedia.mk ⟨[1], "Hz"⟩ [I] [(1 : ℂ)] none).z0_port ∧
      m₂.frequency = some (RawMedia.mk ⟨[1], "Hz"⟩ [I] [(1 : ℂ)] none).frequency ∧
      ∃ Gv Cv Rv Lv,
        m₂.G = .vector Gv ∧ m₂.C = .vector Cv ∧
        m₂.R = .vector Rv ∧ m₂.L = .vector Lv ∧
        Gv.length = (RawMedia.mk ⟨[1], "Hz"⟩ [I] [(1 : ℂ)] none).frequency.npoints ∧
        Cv.length = (RawMedia.mk ⟨[1], "Hz"⟩ [I] [(1 : ℂ)] none).frequency.npoints ∧
        Rv.length = (RawMedia.mk ⟨[1], "Hz"⟩ [I] [(1 : ℂ)] none).frequency.npoints ∧
        Lv.length = (RawMedia.mk ⟨[1], "Hz"⟩ [I] [(1 : ℂ)] none).frequency.npoints ∧
        (∀ k, k < (RawMedia.mk ⟨[1], "Hz"⟩ [I] [(1 : ℂ)] none).frequency.npoints →
          Gv.getD k 0 = (((RawMedia.mk ⟨[1], "Hz"⟩ [I] [(1 : ℂ)] none).gamma.getD k 0)
            / ((RawMedia.mk ⟨[1], "Hz"⟩ [I] [(1 : ℂ)] none).z0.getD k 0)).re ∧
          Cv.getD k 0 = (((RawMedia.mk ⟨[1], "Hz"⟩ [I] [(1 : ℂ)] none).gamma.getD k 0)
            / ((RawMedia.mk ⟨[1], "Hz"⟩ [I] [(1 : ℂ)] none).z0.getD k 0)).im
            / ((RawMedia.mk ⟨[1], "Hz"⟩ [I] [(1 : ℂ)] none).frequency.w.getD k 0) ∧
          Rv.getD k 0 = (((RawMedia.mk ⟨[1], "Hz"⟩ [I] [(1 : ℂ)] none).gamma.getD k 0)
            * ((RawMedia.mk ⟨[1], "Hz"⟩ [I] [(1 : ℂ)] none).z0.getD k 0)).re ∧
          Lv.getD k 0 = (((RawMedia.mk ⟨[1], "Hz"⟩ [I] [(1 : ℂ)] none).gamma.getD k 0)
            * ((RawMedia.mk ⟨[1], "Hz"⟩ [I] [(1 : ℂ)] none).z0.getD k 0)).im
            / ((RawMedia.mk ⟨[1], "Hz"⟩ [I] [(1 : ℂ)] none).frequency.w.getD k 0))) :=
  ⟨rfl, rfl, C3_inverse_formulas (RawMedia.mk ⟨[1], "Hz"⟩ [I] [(1 : ℂ)] none) rfl rfl⟩

/-- after the guard no sample has an exactly zero imaginary part. -/
lemma nudgeAt_im_ne (z : ℂ) : (nudgeAt z).im ≠ 0 := by
  by_cases h : z.im = 0
  · rw [nudgeAt, if_pos h]
    norm_num [Complex.add_im, Complex.mul_im, Complex.I_re, Complex.I_im,
      Complex.ofReal_re, Complex.ofReal_im, h]
  · rw [nudgeAt, if_neg h]
    exact h

/-- the guard is idempotent: a nudged sample is no longer purely real,
so a second pass leaves it unchanged. -/
lemma nudgeAt_idem (z : ℂ) : nudgeAt (nudgeAt z) = nudgeAt z := by
  rw [show nudgeAt (nudgeAt z) = if (nudgeAt z).im = 0
      then nudgeAt z + I * ((1e-12 : ℝ) : ℂ) else nudgeAt z from rfl,
    if_neg (nudgeAt_im_ne z)]

/-- C4: deriving `Z` (resp. `Y`) applies the degeneracy guard to the raw
`R + j*w*L` (resp. `G + j*w*C`) samples: every sample with exactly zero
imaginary part — the DC sample included — is incremented by the absolute
constant `j*1e-12`, every other sample is untouched, and afterwards no
sample of `Z` or `Y` has an exactly zero imaginary part. -/
theorem C4_degeneracy_guard (m : DistributedCircuit) (zs ys : List ℂ)
    (hz : m.Zraw = .ok (.vector zs)) (hy : m.Yraw = .ok (.vector ys)) :
    m.Z = .ok (.vector (zs.map nudgeAt)) ∧
    m.Y = .ok (.vector (ys.map nudgeAt)) ∧
    (∀ z ∈ zs, z.im = 0 → nudgeAt z = z + I * ((1e-12 : ℝ) : ℂ)) ∧
    (∀ z ∈ zs, z.im ≠ 0 → nudgeAt z = z) ∧
    (∀ y ∈ ys, y.im = 0 → nudgeAt y = y + I * ((1e-12 : ℝ) : ℂ)) ∧
    (∀ y ∈ ys, y.im ≠ 0 → nudgeAt y = y) ∧
    (∀ z ∈ zs.map nudgeAt, z.im ≠ 0) ∧
    (∀ y ∈ ys.map nudgeAt, y.im ≠ 0) := by
  refine ⟨?_, ?_, ?_, ?_, ?_, ?_, ?_, ?_⟩
  · show m.Zraw.map nudgeC = _
    rw [hz, map_ok]
    rfl
  · show m.Yraw.map nudgeC = _
    rw [hy, map_ok]
    rfl
  · intro z _ h0
    rw [nudgeAt, if_pos h0]
  · intro z _ h0
    rw [nudgeAt, if_neg h0]
  · intro y _ h0
    rw [nudgeAt, if_pos h0]
  · intro y _ h0
    rw [nudgeAt, if_neg h0]
  · intro z hzz
    obtain ⟨w, _, rfl⟩ := List.mem_map.mp hzz
    exact nudgeAt_im_ne w
  · intro y hyy
    obtain ⟨w, _, rfl⟩ := List.mem_map.mp hyy
    exact nudgeAt_im_ne w

/-- C4 witness: the guard theorem at a one-point DC grid with all four
parameters zero, where the raw sample is purely real. -/
theorem C4_degeneracy_guard_witness :
    ((scalarMode ⟨[0], "Hz"⟩ 0 0 0 0).Zraw = .ok (.vector [dcSample])) ∧
    ((scalarMode ⟨[0], "Hz"⟩ 0 0 0 0).Yraw = .ok (.vector [dcSample])) ∧
    ((scalarMode ⟨[0], "Hz"⟩ 0 0 0 0).Z = .ok (.vector ([dcSample].map nudgeAt)) ∧
    (scalarMode ⟨[0], "Hz"⟩ 0 0 0 0).Y = .ok (.vector ([dcSample].map nudgeAt)) ∧
    (∀ z ∈ [dcSample], z.im = 0 → nudgeAt z = z + I * ((1e-12 : ℝ) : ℂ)) ∧
    (∀ z ∈ [dcSample], z.im ≠ 0 → nudgeAt z = z) ∧
    (∀ y ∈ [dcSample], y.im = 0 → nudgeAt y = y + I * ((1e-12 : ℝ) : ℂ)) ∧
    (∀ y ∈ [dcSample], y.im ≠ 0 → nudgeAt y = y) ∧
    (∀ z ∈ [dcSample].map nudgeAt, z.im ≠ 0) ∧
    (∀ y ∈ [dcSample].map nudgeAt, y.im ≠ 0)) := by
  have hz : (scalarMode ⟨[0], "Hz"⟩ 0 0 0 0).Zraw = .ok (.vector [dcSample]) := by
    rw [Zraw_scalar]
    rfl
  have hy : (scalarMode ⟨[0], "Hz"⟩ 0 0 0 0).Yraw = .ok (.vector [dcSample]) := by
    rw [Yraw_scalar]
    rfl
  exact ⟨hz, hy, C4_degeneracy_guard _ _ _ hz hy⟩

/-- C5: at every sample, `gamma` squares back to `Z*Y` and
`z0_characteristic` squares back to `Z/Y` exactly, and both have
nonnegative real part, with a zero real part resolved to a nonnegative
imaginary part (the principal square-root branch). -/
theorem C5_wave_descriptor_law (m : DistributedCircuit) (zs ys gs ws : List ℂ)
    (hz : m.Z = .ok (.vector zs)) (hy : m.Y = .ok (.vector ys))
    (hlen : zs.length = ys.length)
    (hg : m.gamma = .ok (.vector gs))
    (hw : m.z0_characteristic = .ok (.vector ws)) :
    ∀ k, k < zs.length →
      (gs.getD k 0) * (gs.getD k 0) = (zs.getD k 0) * (ys.getD k 0) ∧
      0 ≤ (gs.getD k 0).re ∧
      ((gs.getD k 0).re = 0 → 0 ≤ (gs.getD k 0).im) ∧
      (ws.getD k 0) * (ws.getD k 0) = (zs.getD k 0) / (ys.getD k 0) ∧
      0 ≤ (ws.getD k 0).re ∧
      ((ws.getD k 0).re = 0 → 0 ≤ (ws.getD k 0).im) := by
  have hg2 : m.gamma = .ok (.vector
      ((List.zipWith (fun a b => a * b) zs ys).map csqrt)) := by
    simp only [DistributedCircuit.gamma]
    rw [hz, ok_bind, hy, ok_bind, bcastOp_vec_vec, bcastList_eq_len _ hlen,
      map_ok, ok_bind]
    rfl
  have hw2 : m.z0_characteristic = .ok (.vector
      ((List.zipWith (fun a b => a / b) zs ys).map csqrt)) := by
    simp only [DistributedCircuit.z0_characteristic]
    rw [hz, ok_bind, hy, ok_bind, bcastOp_vec_vec, bcastList_eq_len _ hlen,
      map_ok, ok_bind]
    rfl
  have hgs : gs = (List.zipWith (fun a b => a * b) zs ys).map csqrt := by
    simpa using hg.symm.trans hg2
  have hws : ws = (List.zipWith (fun a b => a / b) zs ys).map csqrt := by
    simpa using hw.symm.trans hw2
  intro k hk
  have hky : k < ys.length := by omega
  have e1 : gs.getD k 0 = csqrt (zs.getD k 0 * ys.getD k 0) := by
    rw [hgs, List.getD_eq_getElem _ _
        (by rw [List.length_map, List.length_zipWith]; omega),
      List.getElem_map, List.getElem_zipWith,
      List.getD_eq_getElem _ _ hk, List.getD_eq_getElem _ _ hky]
  have e2 : ws.getD k 0 = csqrt (zs.getD k 0 / ys.getD k 0) := by
    rw [hws, List.getD_eq_getElem _ _
        (by rw [List.length_map, List.length_zipWith]; omega),
      List.getElem_map, List.getElem_zipWith,
      List.getD_eq_getElem _ _ hk, List.getD_eq_getElem _ _ hky]
  rw [e1, e2]
  exact ⟨csqrt_mul_self _, csqrt_re_nonneg _, csqrt_im_nonneg_of_re_eq_zero _,
    csqrt_mul_self _, csqrt_re_nonneg _, csqrt_im_nonneg_of_re_eq_zero _⟩

/-- C5 witness: the wave-descriptor law at the one-point DC grid with
zero parameters, where `Z = Y = j*1e-12` after the guard. -/
theorem C5_wave_descriptor_law_witness :
    ((scalarMode ⟨[0], "Hz"⟩ 0 0 0 0).Z = .ok (.vector [nudgeAt dcSample])) ∧
    ((scalarMode ⟨[0], "Hz"⟩ 0 0 0 0).Y = .ok (.vector [nudgeAt dcSample])) ∧
    ([nudgeAt dcSample].length = [nudgeAt dcSample].length) ∧
    ((scalarMode ⟨[0], "Hz"⟩ 0 0 0 0).gamma
      = .ok (.vector [csqrt (nudgeAt dcSample * nudgeAt dcSample)])) ∧
    ((scalarMode ⟨[0], "Hz"⟩ 0 0 0 0).z0_characteristic
      = .ok (.vector [csqrt (nudgeAt dcSample / nudgeAt dcSample)])) ∧
    (∀ k, k < [nudgeAt dcSample].length →
      ([csqrt (nudgeAt dcSample * nudgeAt dcSample)].getD k 0)
        * ([csqrt (nudgeAt dcSample * nudgeAt dcSample)].getD k 0)
        = ([nudgeAt dcSample].getD k 0) * ([nudgeAt dcSample].getD k 0) ∧
      0 ≤ (([csqrt (nudgeAt dcSample * nudgeAt dcSample)].getD k 0)).re ∧
      ((([csqrt (nudgeAt dcSample * nudgeAt dcSample)].getD k 0)).re = 0 →
        0 ≤ (([csqrt (nudgeAt dcSample * nudgeAt dcSample)].getD k 0)).im) ∧
      ([csqrt (nudgeAt dcSample / nudgeAt dcSample)].getD k 0)
        * ([csqrt (nudgeAt dcSample / nudgeAt dcSample)].getD k 0)
        = ([nudgeAt dcSample].getD k 0) / ([nudgeAt dcSample].getD k 0) ∧
      0 ≤ (([csqrt (nudgeAt dcSample / nudgeAt dcSample)].getD k 0)).re ∧
      ((([csqrt (nudgeAt dcSample / nudgeAt dcSample)].getD k 0)).re = 0 →
        0 ≤ (([csqrt (nudgeAt dcSample / nudgeAt dcSample)].getD k 0)).im)) := by
  have hz : (scalarMode ⟨[0], "Hz"⟩ 0 0 0 0).Z = .ok (.vector [nudgeAt dcSample]) := by
    show (scalarMode ⟨[0], "Hz"⟩ 0 0 0 0).Zraw.map nudgeC = _
    rw [Zraw_scalar]
    rfl
  have hy : (scalarMode ⟨[0], "Hz"⟩ 0 0 0 0).Y = .ok (.vector [nudgeAt dcSample]) := by
    show (scalarMode ⟨[0], "Hz"⟩ 0 0 0 0).Yraw.map nudgeC = _
    rw [Yraw_scalar]
    rfl
  have hg : (scalarMode ⟨[0], "Hz"⟩ 0 0 0 0).gamma
      = .ok (.vector [csqrt (nudgeAt dcSample * nudgeAt dcSample)]) := by
    simp only [DistributedCircuit.gamma]
    rw [hz, ok_bind, hy, ok_bind, bcastOp_vec_vec, bcastList_eq_len _ rfl,
      map_ok, ok_bind]
    rfl
  have hw : (scalarMode ⟨[0], "Hz"⟩ 0 0 0 0).z0_characteristic
      = .ok (.vector [csqrt (nudgeAt dcSample / nudgeAt dcSample)]) := by
    simp only [DistributedCircuit.z0_characteristic]
    rw [hz, ok_bind, hy, ok_bind, bcastOp_vec_vec, bcastList_eq_len _ rfl,
      map_ok, ok_bind]
    rfl
  exact ⟨hz, hy, rfl, hg, hw, C5_wave_descriptor_law _ _ _ _ _ hz hy rfl hg hw⟩

/-- map over a failed `Except` keeps the error. -/
lemma map_error {ε α β : Type} (f : α → β) (e : ε) :
    Except.map f (Except.error e : Except ε α) = .error e := rfl

/-- bind of a failed `Except` keeps the error. -/
lemma error_bind {ε α β : Type} (e : ε) (f : α → Except ε β) :
    (Except.error e : Except ε α) >>= f = .error e := rfl

/-- array-scalar `bcastOp` maps the scalar over the array. -/
lemma bcastOp_vec_scalar (op : ℂ → ℂ → ℂ) (as : List ℂ) (b : ℂ) :
    bcastOp op (.vector as) (.scalar b) = .ok (.vector (as.map (fun a => op a b))) := rfl

/-- C6 (intent, violated by the code): rendering a mode whose `L`
parameter is a vector raises `TypeError` to the caller — the fallback
branch of `__str__` applies the same fixed-point format to the vector
again, so the fall-back never succeeds, contrary to the documented
silent ellipsis rendering. -/
theorem C6_str_vector_raises (showR : ℝ → String) (mp : Option CVal)
    (mC mR mG : RParam) (f0 : ℝ) (fs : List ℝ) (u : String) (ls : List ℝ) :
    (DistributedCircuit.mk (some ⟨f0 :: fs, u⟩) mp mC (.vector ls) mR mG).strForm showR
      = .error .typeError := rfl

/-- C7 (amended): construction stores mismatched vectors without error,
and whichever of the four parameter slots holds a mismatched vector
(length at least 2, differing from the length of the grid or of a
grid-aligned partner vector, on a grid of at least 2 points), the shape
error is raised at the first access of the derivation that uses that
slot — `Z` for `R` and `L`, `Y` for `G` and `C`; numpy broadcasts
length-1 vectors silently, hence the length bounds. A mode without a
frequency grid raises the missing-grid error at every derived access. -/
theorem C7_deferred_errors (fr : Frequency) (p : Option CVal)
    (Cp Lp Gp Rp : RParam) (Lsc Csc : ℝ)
    (ls rs cs gv lsN csN : List ℝ)
    (hN : 2 ≤ fr.npoints)
    (h2l : 2 ≤ ls.length) (hnel : ls.length ≠ fr.npoints)
    (h2r : 2 ≤ rs.length) (hner : rs.length ≠ fr.npoints)
    (h2c : 2 ≤ cs.length) (hnec : cs.length ≠ fr.npoints)
    (h2g : 2 ≤ gv.length) (hneg : gv.length ≠ fr.npoints)
    (hlsN : lsN.length = fr.npoints) (hcsN : csN.length = fr.npoints) :
    ((DistributedCircuit.ofInit (some fr) p (some Cp) (some Lp)
        (some (.vector rs)) (some Gp)).R = .vector rs ∧
     (DistributedCircuit.ofInit (some fr) p (some Cp) (some Lp)
        (some (.vector rs)) (some Gp)).frequency = some fr) ∧
    ((DistributedCircuit.ofInit (some fr) p (some Cp) (some (.vector ls))
        (some Rp) (some Gp)).Z = .error .shapeError ∧
     (DistributedCircuit.ofInit (some fr) p (some Cp) (some (.vector ls))
        (some Rp) (some Gp)).gamma = .error .shapeError) ∧
    (DistributedCircuit.ofInit (some fr) p (some Cp) (some (.scalar Lsc))
      (some (.vector rs)) (some Gp)).Z = .error .shapeError ∧
    (DistributedCircuit.ofInit (some fr) p (some Cp) (some (.vector lsN))
      (some (.vector rs)) (some Gp)).Z = .error .shapeError ∧
    (DistributedCircuit.ofInit (some fr) p (some (.vector cs)) (some Lp)
      (some Rp) (some Gp)).Y = .error .shapeError ∧
    (DistributedCircuit.ofInit (some fr) p (some (.scalar Csc)) (some Lp)
      (some Rp) (some (.vector gv))).Y = .error .shapeError ∧
    (DistributedCircuit.ofInit (some fr) p (some (.vector csN)) (some Lp)
      (some Rp) (some (.vector gv))).Y = .error .shapeError ∧
    (∀ m0 : DistributedCircuit, m0.frequency = none →
      m0.Z = .error .missingGrid ∧ m0.Y = .error .missingGrid ∧
      m0.z0_characteristic = .error .missingGrid ∧ m0.gamma = .error .missingGrid) := by
  have lw : fr.w.length = fr.npoints := by
    rw [Frequency.w, List.length_map]
    rfl
  have hZrB : (DistributedCircuit.ofInit (some fr) p (some Cp) (some (.vector ls))
      (some Rp) (some Gp)).Zraw = .error .shapeError := by
    have h0 : (DistributedCircuit.ofInit (some fr) p (some Cp) (some (.vector ls))
        (some Rp) (some Gp)).wvec = .ok fr.w := rfl
    have hLc : (DistributedCircuit.ofInit (some fr) p (some Cp) (some (.vector ls))
        (some Rp) (some Gp)).L.toC = .vector (ls.map (fun x : ℝ => (x : ℂ))) := rfl
    simp only [DistributedCircuit.Zraw]
    rw [h0, ok_bind, bcastOp_scalar_vec, ok_bind, hLc, bcastOp_vec_vec, bcastList,
      if_neg (by simp only [List.length_map, lw]; omega),
      if_neg (by simp only [List.length_map, lw]; omega),
      if_neg (by simp only [List.length_map]; omega)]
    rfl
  have hZB : (DistributedCircuit.ofInit (some fr) p (some Cp) (some (.vector ls))
      (some Rp) (some Gp)).Z = .error .shapeError := by
    show Except.map nudgeC _ = _
    rw [hZrB, map_error]
  have hZrC : (DistributedCircuit.ofInit (some fr) p (some Cp) (some (.scalar Lsc))
      (some (.vector rs)) (some Gp)).Zraw = .error .shapeError := by
    have h0 : (DistributedCircuit.ofInit (some fr) p (some Cp) (some (.scalar Lsc))
        (some (.vector rs)) (some Gp)).wvec = .ok fr.w := rfl
    have hLc : (DistributedCircuit.ofInit (some fr) p (some Cp) (some (.scalar Lsc))
        (some (.vector rs)) (some Gp)).L.toC = .scalar ((Lsc : ℝ) : ℂ) := rfl
    have hRc : (DistributedCircuit.ofInit (some fr) p (some Cp) (some (.scalar Lsc))
        (some (.vector rs)) (some Gp)).R.toC
        = .vector (rs.map (fun x : ℝ => (x : ℂ))) := rfl
    simp only [DistributedCircuit.Zraw]
    rw [h0, ok_bind, bcastOp_scalar_vec, ok_bind, hLc, bcastOp_vec_scalar, ok_bind,
      hRc, bcastOp_vec_vec, bcastList,
      if_neg (by simp only [List.length_map, lw]; omega),
      if_neg (by simp only [List.length_map]; omega),
      if_neg (by simp only [List.length_map, lw]; omega)]
    rfl
  have hZC : (DistributedCircuit.ofInit (some fr) p (some Cp) (some (.scalar Lsc))
      (some (.vector rs)) (some Gp)).Z = .error .shapeError := by
    show Except.map nudgeC _ = _
    rw [hZrC, map_error]
  have hZrD : (DistributedCircuit.ofInit (some fr) p (some Cp) (some (.vector lsN))
      (some (.vector rs)) (some Gp)).Zraw = .error .shapeError := by
    have h0 : (DistributedCircuit.ofInit (some fr) p (some Cp) (some (.vector lsN))
        (some (.vector rs)) (some Gp)).wvec = .ok fr.w := rfl
    have hLc : (DistributedCircuit.ofInit (some fr) p (some Cp) (some (.vector lsN))
        (some (.vector rs)) (some Gp)).L.toC
        = .vector (lsN.map (fun x : ℝ => (x : ℂ))) := rfl
    have hRc : (DistributedCircuit.ofInit (some fr) p (some Cp) (some (.vector lsN))
        (some (.vector rs)) (some Gp)).R.toC
        = .vector (rs.map (fun x : ℝ => (x : ℂ))) := rfl
    simp only [DistributedCircuit.Zraw]
    rw [h0, ok_bind, bcastOp_scalar_vec, ok_bind, hLc, bcastOp_vec_vec,
      bcastList_eq_len _ (by simp only [List.length_map, lw, hlsN]),
      map_ok, ok_bind, hRc, bcastOp_vec_vec, bcastList,
      if_neg (by
        simp only [List.length_map, List.length_zipWith, lw, hlsN, min_self]
        omega),
      if_neg (by simp only [List.length_map]; omega),
      if_neg (by
        simp only [List.length_map, List.length_zipWith, lw, hlsN, min_self]
        omega)]
    rfl
  have hZD : (DistributedCircuit.ofInit (some fr) p (some Cp) (some (.vector lsN))
      (some (.vector rs)) (some Gp)).Z = .error .shapeError := by
    show Except.map nudgeC _ = _
    rw [hZrD, map_error]
  have hYrE : (DistributedCircuit.ofInit (some fr) p (some (.vector cs)) (some Lp)
      (some Rp) (some Gp)).Yraw = .error .shapeError := by
    have h0 : (DistributedCircuit.ofInit (some fr) p (some (.vector cs)) (some Lp)
        (some Rp) (some Gp)).wvec = .ok fr.w := rfl
    have hCc : (DistributedCircuit.ofInit (some fr) p (some (.vector cs)) (some Lp)
        (some Rp) (some Gp)).C.toC = .vector (cs.map (fun x : ℝ => (x : ℂ))) := rfl
    simp only [DistributedCircuit.Yraw]
    rw [h0, ok_bind, bcastOp_scalar_vec, ok_bind, hCc, bcastOp_vec_vec, bcastList,
      if_neg (by simp only [List.length_map, lw]; omega),
      if_neg (by simp only [List.length_map, lw]; omega),
      if_neg (by simp only [List.length_map]; omega)]
    rfl
  have hYE : (DistributedCircuit.ofInit (some fr) p (some (.vector cs)) (some Lp)
      (some Rp) (some Gp)).Y = .error .shapeError := by
    show Except.map nudgeC _ = _
    rw [hYrE, map_error]
  have hYrF : (DistributedCircuit.ofInit (some fr) p (some (.scalar Csc)) (some Lp)
      (some Rp) (some (.vector gv))).Yraw = .error .shapeError := by
    have h0 : (DistributedCircuit.ofInit (some fr) p (some (.scalar Csc)) (some Lp)
        (some Rp) (some (.vector gv))).wvec = .ok fr.w := rfl
    have hCc : (DistributedCircuit.ofInit (some fr) p (some (.scalar Csc)) (some Lp)
        (some Rp) (some (.vector gv))).C.toC = .scalar ((Csc : ℝ) : ℂ) := rfl
    have hGc : (DistributedCircuit.ofInit (some fr) p (some (.scalar Csc)) (some Lp)
        (some Rp) (some (.vector gv))).G.toC
        = .vector (gv.map (fun x : ℝ => (x : ℂ))) := rfl
    simp only [DistributedCircuit.Yraw]
    rw [h0, ok_bind, bcastOp_scalar_vec, ok_bind, hCc, bcastOp_vec_scalar, ok_bind,
      hGc, bcastOp_vec_vec, bcastList,
      if_neg (by simp only [List.length_map, lw]; omega),
      if_neg (by simp only [List.length_map]; omega),
      if_neg (by simp only [List.length_map, lw]; omega)]
    rfl
  have hYF : (DistributedCircuit.ofInit (some fr) p (some (.scalar Csc)) (some Lp)
      (some Rp) (some (.vector gv))).Y = .error .shapeError := by
    show Except.map nudgeC _ = _
    rw [hYrF, map_error]
  have hYrG : (DistributedCircuit.ofInit (some fr) p (some (.vector csN)) (some Lp)
      (some Rp) (some (.vector gv))).Yraw = .error .shapeError := by
    have h0 : (DistributedCircuit.ofInit (some fr) p (some (.vector csN)) (some Lp)
        (some Rp) (some (.vector gv))).wvec = .ok fr.w := rfl
    have hCc : (DistributedCircuit.ofInit (some fr) p (some (.vector csN)) (some Lp)
        (some Rp) (some (.vector gv))).C.toC
        = .vector (csN.map (fun x : ℝ => (x : ℂ))) := rfl
    have hGc : (DistributedCircuit.ofInit (some fr) p (some (.vector csN)) (some Lp)
        (some Rp) (some (.vector gv))).G.toC
        = .vector (gv.map (fun x : ℝ => (x : ℂ))) := rfl
    simp only [DistributedCircuit.Yraw]
    rw [h0, ok_bind, bcastOp_scalar_vec, ok_bind, hCc, bcastOp_vec_vec,
      bcastList_eq_len _ (by simp only [List.length_map, lw, hcsN]),
      map_ok, ok_bind, hGc, bcastOp_vec_vec, bcastList,
      if_neg (by
        simp only [List.length_map, List.length_zipWith, lw, hcsN, min_self]
        omega),
      if_neg (by simp only [List.length_map]; omega),
      if_neg (by
        simp only [List.length_map, List.length_zipWith, lw, hcsN, min_self]
        omega)]
    rfl
  have hYG : (DistributedCircuit.ofInit (some fr) p (some (.vector csN)) (some Lp)
      (some Rp) (some (.vector gv))).Y = .error .shapeError := by
    show Except.map nudgeC _ = _
    rw [hYrG, map_error]
  refine ⟨⟨rfl, rfl⟩, ⟨hZB, ?_⟩, hZC, hZD, hYE, hYF, hYG, ?_⟩
  · simp only [DistributedCircuit.gamma]
    rw [hZB, error_bind]
  · intro m0 h
    have hv : m0.wvec = .error .missingGrid := by
      rw [DistributedCircuit.wvec, h]
    have hZr : m0.Zraw = .error .missingGrid := by
      simp only [DistributedCircuit.Zraw]
      rw [hv, error_bind]
    have hYr : m0.Yraw = .error .missingGrid := by
      simp only [DistributedCircuit.Yraw]
      rw [hv, error_bind]
    have hZ0 : m0.Z = .error .missingGrid := by
      show Except.map nudgeC _ = _
      rw [hZr, map_error]
    have hY0 : m0.Y = .error .missingGrid := by
      show Except.map nudgeC _ = _
      rw [hYr, map_error]
    refine ⟨hZ0, hY0, ?_, ?_⟩
    · simp only [DistributedCircuit.z0_characteristic]
      rw [hZ0, error_bind]
    · simp only [DistributedCircuit.gamma]
      rw [hZ0, error_bind]

/-- C7 witness: on the 2-point grid, mismatched length-3 vectors in each
of the four parameter slots error at the first `Z` or `Y` access —
including vector-against-vector mismatches — and a grid-less mode
errors on every derivation. -/
theorem C7_deferred_errors_witness :
    (2 ≤ (Frequency.mk [1, 2] "Hz").npoints) ∧
    (2 ≤ [(1 : ℝ), 2, 3].length) ∧
    ([(1 : ℝ), 2, 3].length ≠ (Frequency.mk [1, 2] "Hz").npoints) ∧
    (2 ≤ [(4 : ℝ), 5, 6].length) ∧
    ([(4 : ℝ), 5, 6].length ≠ (Frequency.mk [1, 2] "Hz").npoints) ∧
    (2 ≤ [(7 : ℝ), 8, 9].length) ∧
    ([(7 : ℝ), 8, 9].length ≠ (Frequency.mk [1, 2] "Hz").npoints) ∧
    (2 ≤ [(10 : ℝ), 11, 12].length) ∧
    ([(10 : ℝ), 11, 12].length ≠ (Frequency.mk [1, 2] "Hz").npoints) ∧
    ([(1 : ℝ), 2].length = (Frequency.mk [1, 2] "Hz").npoints) ∧
    ([(3 : ℝ), 4].length = (Frequency.mk [1, 2] "Hz").npoints) ∧
    (((DistributedCircuit.ofInit (some ⟨[1, 2], "Hz"⟩) none (some (.scalar 0))
        (some (.scalar 0)) (some (.vector [4, 5, 6])) (some (.scalar 0))).R
          = .vector [4, 5, 6] ∧
      (DistributedCircuit.ofInit (some ⟨[1, 2], "Hz"⟩) none (some (.scalar 0))
        (some (.scalar 0)) (some (.vector [4, 5, 6])) (some (.scalar 0))).frequency
          = some ⟨[1, 2], "Hz"⟩) ∧
    ((DistributedCircuit.ofInit (some ⟨[1, 2], "Hz"⟩) none (some (.scalar 0))
        (some (.vector [1, 2, 3])) (some (.scalar 0)) (some (.scalar 0))).Z
          = .error .shapeError ∧
      (DistributedCircuit.ofInit (some ⟨[1, 2], "Hz"⟩) none (some (.scalar 0))
        (some (.vector [1, 2, 3])) (some (.scalar 0)) (some (.scalar 0))).gamma
          = .error .shapeError) ∧
    (DistributedCircuit.ofInit (some ⟨[1, 2], "Hz"⟩) none (some (.scalar 0))
      (some (.scalar 0)) (some (.vector [4, 5, 6])) (some (.scalar 0))).Z
        = .error .shapeError ∧
    (DistributedCircuit.ofInit (some ⟨[1, 2], "Hz"⟩) none (some (.scalar 0))
      (some (.vector [1, 2])) (some (.vector [4, 5, 6])) (some (.scalar 0))).Z
        = .error .shapeError ∧
    (DistributedCircuit.ofInit (some ⟨[1, 2], "Hz"⟩) none (some (.vector [7, 8, 9]))
      (some (.scalar 0)) (some (.scalar 0)) (some (.scalar 0))).Y
        = .error .shapeError ∧
    (DistributedCircuit.ofInit (some ⟨[1, 2], "Hz"⟩) none (some (.scalar 0))
      (some (.scalar 0)) (some (.scalar 0)) (some (.vector [10, 11, 12]))).Y
        = .error .shapeError ∧
    (DistributedCircuit.ofInit (some ⟨[1, 2], "Hz"⟩) none (some (.vector [3, 4]))
      (some (.scalar 0)) (some (.scalar 0)) (some (.vector [10, 11, 12]))).Y
        = .error .shapeError ∧
    (∀ m0 : DistributedCircuit, m0.frequency = none →
      m0.Z = .error .missingGrid ∧ m0.Y = .error .missingGrid ∧
      m0.z0_characteristic = .error .missingGrid ∧ m0.gamma = .error .missingGrid)) := by
  refine ⟨by norm_num [Frequency.npoints], by norm_num,
    by norm_num [Frequency.npoints], by norm_num, by norm_num [Frequency.npoints],
    by norm_num, by norm_num [Frequency.npoints], by norm_num,
    by norm_num [Frequency.npoints], by norm_num [Frequency.npoints],
    by norm_num [Frequency.npoints], ?_⟩
  exact C7_deferred_errors ⟨[1, 2], "Hz"⟩ none (.scalar 0) (.scalar 0) (.scalar 0)
    (.scalar 0) 0 0 [1, 2, 3] [4, 5, 6] [7, 8, 9] [10, 11, 12] [1, 2] [3, 4]
    (by norm_num [Frequency.npoints]) (by norm_num)
    (by norm_num [Frequency.npoints]) (by norm_num)
    (by norm_num [Frequency.npoints]) (by norm_num)
    (by norm_num [Frequency.npoints]) (by norm_num)
    (by norm_num [Frequency.npoints]) (by norm_num [Frequency.npoints])
    (by norm_num [Frequency.npoints])

/-- C7 counterexample: a length-1 `R` vector that mismatches the 2-point
grid never raises — numpy broadcasts length-1 arrays — so the claim that
every mismatched vector length yields a shape error at first access of
`Z` or `Y` is false as stated. -/
theorem C7_counterexample :
    (DistributedCircuit.ofInit (some ⟨[1, 2], "Hz"⟩) none (some (.scalar 0))
      (some (.scalar 0)) (some (.vector [5])) (some (.scalar 0))).R = .vector [5] ∧
    ([(5 : ℝ)].length ≠ (Frequency.mk [1, 2] "Hz").npoints) ∧
    (DistributedCircuit.ofInit (some ⟨[1, 2], "Hz"⟩) none (some (.scalar 0))
      (some (.scalar 0)) (some (.vector [5])) (some (.scalar 0))).Z
      ≠ .error .shapeError ∧
    (DistributedCircuit.ofInit (some ⟨[1, 2], "Hz"⟩) none (some (.scalar 0))
      (some (.scalar 0)) (some (.vector [5])) (some (.scalar 0))).Y
      ≠ .error .shapeError := by
  have hZr : (DistributedCircuit.ofInit (some ⟨[1, 2], "Hz"⟩) none (some (.scalar 0))
      (some (.scalar 0)) (some (.vector [5])) (some (.scalar 0))).Zraw
      = .ok (.vector ((((Frequency.mk [1, 2] "Hz").w.map (fun x : ℝ => (x : ℂ))).map
          (fun b => I * b)).map (fun a => a * ((0 : ℝ) : ℂ)) |>.map
            (fun b => (((5 : ℝ) : ℂ)) + b))) := by
    have hww : (DistributedCircuit.ofInit (some ⟨[1, 2], "Hz"⟩) none (some (.scalar 0))
        (some (.scalar 0)) (some (.vector [5])) (some (.scalar 0))).wvec
        = .ok (Frequency.mk [1, 2] "Hz").w := rfl
    simp only [DistributedCircuit.Zraw]
    rw [hww, ok_bind, bcastOp_scalar_vec, ok_bind]
    have hLc : (DistributedCircuit.ofInit (some ⟨[1, 2], "Hz"⟩) none (some (.scalar 0))
        (some (.scalar 0)) (some (.vector [5])) (some (.scalar 0))).L.toC
        = .scalar ((0 : ℝ) : ℂ) := rfl
    have hRc : (DistributedCircuit.ofInit (some ⟨[1, 2], "Hz"⟩) none (some (.scalar 0))
        (some (.scalar 0)) (some (.vector [5])) (some (.scalar 0))).R.toC
        = .vector ([(5 : ℝ)].map (fun x : ℝ => (x : ℂ))) := rfl
    rw [hLc, hRc, bcastOp_vec_scalar, ok_bind, bcastOp_vec_vec, bcastList]
    rw [if_neg (by decide), if_pos (by decide)]
    rfl
  have hYr : (DistributedCircuit.ofInit (some ⟨[1, 2], "Hz"⟩) none (some (.scalar 0))
      (some (.scalar 0)) (some (.vector [5])) (some (.scalar 0))).Yraw
      = .ok (.vector ((((Frequency.mk [1, 2] "Hz").w.map (fun x : ℝ => (x : ℂ))).map
          (fun b => I * b)).map (fun a => a * ((0 : ℝ) : ℂ)) |>.map
            (fun b => (((0 : ℝ) : ℂ)) + b))) := by
    have hww : (DistributedCircuit.ofInit (some ⟨[1, 2], "Hz"⟩) none (some (.scalar 0))
        (some (.scalar 0)) (some (.vector [5])) (some (.scalar 0))).wvec
        = .ok (Frequency.mk [1, 2] "Hz").w := rfl
    simp only [DistributedCircuit.Yraw]
    rw [hww, ok_bind, bcastOp_scalar_vec, ok_bind]
    have hCc : (DistributedCircuit.ofInit (some ⟨[1, 2], "Hz"⟩) none (some (.scalar 0))
        (some (.scalar 0)) (some (.vector [5])) (some (.scalar 0))).C.toC
        = .scalar ((0 : ℝ) : ℂ) := rfl
    have hGc : (DistributedCircuit.ofInit (some ⟨[1, 2], "Hz"⟩) none (some (.scalar 0))
        (some (.scalar 0)) (some (.vector [5])) (some (.scalar 0))).G.toC
        = .scalar ((0 : ℝ) : ℂ) := rfl
    rw [hCc, hGc, bcastOp_vec_scalar, ok_bind, bcastOp_scalar_vec]
  refine ⟨rfl, by norm_num [Frequency.npoints], ?_, ?_⟩
  · show (DistributedCircuit.ofInit (some ⟨[1, 2], "Hz"⟩) none (some (.scalar 0))
      (some (.scalar 0)) (some (.vector [5])) (some (.scalar 0))).Zraw.map nudgeC
      ≠ .error .shapeError
    rw [hZr, map_ok]
    simp
  · show (DistributedCircuit.ofInit (some ⟨[1, 2], "Hz"⟩) none (some (.scalar 0))
      (some (.scalar 0)) (some (.vector [5])) (some (.scalar 0))).Yraw.map nudgeC
      ≠ .error .shapeError
    rw [hYr, map_ok]
    simp

/-- C8: the constructor defaults are `C = 90e-12`, `L = 280e-9`, `R = 0`,
`G = 0`; every supplied parameter — scalar or vector of any length — is
stored exactly as given without validation, and the grid and port
impedance are stored unchanged; broadcasting against `w` happens only
when `Z` is derived, which turns scalar parameters into a grid-length
sample vector. -/
theorem C8_construction_stores (fr : Option Frequency) (p : Option CVal) :
    ((DistributedCircuit.ofInit fr p none none none none).C = .scalar 90e-12 ∧
     (DistributedCircuit.ofInit fr p none none none none).L = .scalar 280e-9 ∧
     (DistributedCircuit.ofInit fr p none none none none).R = .scalar 0 ∧
     (DistributedCircuit.ofInit fr p none none none none).G = .scalar 0) ∧
    (∀ c l r g : RParam,
      (DistributedCircuit.ofInit fr p (some c) (some l) (some r) (some g)).C = c ∧
      (DistributedCircuit.ofInit fr p (some c) (some l) (some r) (some g)).L = l ∧
      (DistributedCircuit.ofInit fr p (some c) (some l) (some r) (some g)).R = r ∧
      (DistributedCircuit.ofInit fr p (some c) (some l) (some r) (some g)).G = g ∧
      (DistributedCircuit.ofInit fr p (some c) (some l) (some r) (some g)).frequency = fr ∧
      (DistributedCircuit.ofInit fr p (some c) (some l) (some r) (some g)).z0_port = p) ∧
    (∀ (fr2 : Frequency) (Rp Lp Gp Cp : ℝ), ∃ zs,
      (scalarMode fr2 Rp Lp Gp Cp).Z = .ok (.vector zs) ∧
      zs.length = fr2.npoints) := by
  refine ⟨⟨rfl, rfl, rfl, rfl⟩, fun c l r g => ⟨rfl, rfl, rfl, rfl, rfl, rfl⟩, ?_⟩
  intro fr2 Rp Lp Gp Cp
  refine ⟨(fr2.w.map (fun x : ℝ =>
    (Rp : ℂ) + I * (x : ℂ) * (Lp : ℂ))).map nudgeAt, ?_, ?_⟩
  · show (scalarMode fr2 Rp Lp Gp Cp).Zraw.map nudgeC = _
    rw [Zraw_scalar]
    rfl
  · rw [List.length_map, List.length_map, Frequency.w, List.length_map]
    rfl

/-- C9: reads of `Z`, `Y`, `z0_characteristic`, `gamma` are recomputed
from the currently stored fields: two modes with identical stored
fields read identically, and a mode mutated through a parameter setter
is field-for-field the mode freshly constructed from the updated
parameter store, so its reads are those of the updated parameters. -/
theorem C9_reads_track_store (m m' : DistributedCircuit) (r l g c : RParam)
    (h1 : m.R = m'.R) (h2 : m.L = m'.L) (h3 : m.G = m'.G) (h4 : m.C = m'.C)
    (h5 : m.frequency = m'.frequency) :
    (m.Z = m'.Z ∧ m.Y = m'.Y ∧
     m.z0_characteristic = m'.z0_characteristic ∧ m.gamma = m'.gamma) ∧
    (m.setR r = DistributedCircuit.ofInit m.frequency m.z0_port
        (some m.C) (some m.L) (some r) (some m.G) ∧
     m.setL l = DistributedCircuit.ofInit m.frequency m.z0_port
        (some m.C) (some l) (some m.R) (some m.G) ∧
     m.setG g = DistributedCircuit.ofInit m.frequency m.z0_port
        (some m.C) (some m.L) (some m.R) (some g) ∧
     m.setC c = DistributedCircuit.ofInit m.frequency m.z0_port
        (some c) (some m.L) (some m.R) (some m.G)) ∧
    ((m.setR r).gamma = (DistributedCircuit.ofInit m.frequency m.z0_port
        (some m.C) (some m.L) (some r) (some m.G)).gamma ∧
     (m.setC c).gamma = (DistributedCircuit.ofInit m.frequency m.z0_port
        (some c) (some m.L) (some m.R) (some m.G)).gamma) := by
  have hZ : m.Z = m'.Z := by
    simp only [DistributedCircuit.Z, DistributedCircuit.Zraw,
      DistributedCircuit.wvec, h1, h2, h5]
  have hY : m.Y = m'.Y := by
    simp only [DistributedCircuit.Y, DistributedCircuit.Yraw,
      DistributedCircuit.wvec, h3, h4, h5]
  refine ⟨⟨hZ, hY, ?_, ?_⟩, ⟨rfl, rfl, rfl, rfl⟩, ⟨rfl, rfl⟩⟩
  · simp only [DistributedCircuit.z0_characteristic, hZ, hY]
  · simp only [DistributedCircuit.gamma, hZ, hY]

/-- C9 witness: the recomputation theorem applied to a concrete mode and
a concrete parameter update. -/
theorem C9_reads_track_store_witness :
    ((scalarMode ⟨[1], "Hz"⟩ 1 1 1 1).R = (scalarMode ⟨[1], "Hz"⟩ 1 1 1 1).R) ∧
    ((scalarMode ⟨[1], "Hz"⟩ 1 1 1 1).L = (scalarMode ⟨[1], "Hz"⟩ 1 1 1 1).L) ∧
    ((scalarMode ⟨[1], "Hz"⟩ 1 1 1 1).G = (scalarMode ⟨[1], "Hz"⟩ 1 1 1 1).G) ∧
    ((scalarMode ⟨[1], "Hz"⟩ 1 1 1 1).C = (scalarMode ⟨[1], "Hz"⟩ 1 1 1 1).C) ∧
    ((scalarMode ⟨[1], "Hz"⟩ 1 1 1 1).frequency
      = (scalarMode ⟨[1], "Hz"⟩ 1 1 1 1).frequency) ∧
    (((scalarMode ⟨[1], "Hz"⟩ 1 1 1 1).Z = (scalarMode ⟨[1], "Hz"⟩ 1 1 1 1).Z ∧
      (scalarMode ⟨[1], "Hz"⟩ 1 1 1 1).Y = (scalarMode ⟨[1], "Hz"⟩ 1 1 1 1).Y ∧
      (scalarMode ⟨[1], "Hz"⟩ 1 1 1 1).z0_characteristic
        = (scalarMode ⟨[1], "Hz"⟩ 1 1 1 1).z0_characteristic ∧
      (scalarMode ⟨[1], "Hz"⟩ 1 1 1 1).gamma
        = (scalarMode ⟨[1], "Hz"⟩ 1 1 1 1).gamma) ∧
    ((scalarMode ⟨[1], "Hz"⟩ 1 1 1 1).setR (.scalar 2)
        = DistributedCircuit.ofInit (scalarMode ⟨[1], "Hz"⟩ 1 1 1 1).frequency
          (scalarMode ⟨[1], "Hz"⟩ 1 1 1 1).z0_port
          (some (scalarMode ⟨[1], "Hz"⟩ 1 1 1 1).C)
          (some (scalarMode ⟨[1], "Hz"⟩ 1 1 1 1).L)
          (some (.scalar 2))
          (some (scalarMode ⟨[1], "Hz"⟩ 1 1 1 1).G) ∧
      (scalarMode ⟨[1], "Hz"⟩ 1 1 1 1).setL (.scalar 2)
        = DistributedCircuit.ofInit (scalarMode ⟨[1], "Hz"⟩ 1 1 1 1).frequency
          (scalarMode ⟨[1], "Hz"⟩ 1 1 1 1).z0_port
          (some (scalarMode ⟨[1], "Hz"⟩ 1 1 1 1).C)
          (some (.scalar 2))
          (some (scalarMode ⟨[1], "Hz"⟩ 1 1 1 1).R)
          (some (scalarMode ⟨[1], "Hz"⟩ 1 1 1 1).G) ∧
      (scalarMode ⟨[1], "Hz"⟩ 1 1 1 1).setG (.scalar 2)
        = DistributedCircuit.ofInit (scalarMode ⟨[1], "Hz"⟩ 1 1 1 1).frequency
          (scalarMode ⟨[1], "Hz"⟩ 1 1 1 1).z0_port
          (some (scalarMode ⟨[1], "Hz"⟩ 1 1 1 1).C)
          (some (scalarMode ⟨[1], "Hz"⟩ 1 1 1 1).L)
          (some (scalarMode ⟨[1], "Hz"⟩ 1 1 1 1).R)
          (some (.scalar 2)) ∧
      (scalarMode ⟨[1], "Hz"⟩ 1 1 1 1).setC (.scalar 2)
        = DistributedCircuit.ofInit (scalarMode ⟨[1], "Hz"⟩ 1 1 1 1).frequency
          (scalarMode ⟨[1], "Hz"⟩ 1 1 1 1).z0_port
          (some (.scalar 2))
          (some (scalarMode ⟨[1], "Hz"⟩ 1 1 1 1).L)
          (some (scalarMode ⟨[1], "Hz"⟩ 1 1 1 1).R)
          (some (scalarMode ⟨[1], "Hz"⟩ 1 1 1 1).G)) ∧
    (((scalarMode ⟨[1], "Hz"⟩ 1 1 1 1).setR (.scalar 2)).gamma
        = (DistributedCircuit.ofInit (scalarMode ⟨[1], "Hz"⟩ 1 1 1 1).frequency
          (scalarMode ⟨[1], "Hz"⟩ 1 1 1 1).z0_port
          (some (scalarMode ⟨[1], "Hz"⟩ 1 1 1 1).C)
          (some (scalarMode ⟨[1], "Hz"⟩ 1 1 1 1).L)
          (some (.scalar 2))
          (some (scalarMode ⟨[1], "Hz"⟩ 1 1 1 1).G)).gamma ∧
      ((scalarMode ⟨[1], "Hz"⟩ 1 1 1 1).setC (.scalar 2)).gamma
        = (DistributedCircuit.ofInit (scalarMode ⟨[1], "Hz"⟩ 1 1 1 1).frequency
          (scalarMode ⟨[1], "Hz"⟩ 1 1 1 1).z0_port
          (some (.scalar 2))
          (some (scalarMode ⟨[1], "Hz"⟩ 1 1 1 1).L)
          (some (scalarMode ⟨[1], "Hz"⟩ 1 1 1 1).R)
          (some (scalarMode ⟨[1], "Hz"⟩ 1 1 1 1).G)).gamma)) :=
  ⟨rfl, rfl, rfl, rfl, rfl,
    C9_reads_track_store (scalarMode ⟨[1], "Hz"⟩ 1 1 1 1)
      (scalarMode ⟨[1], "Hz"⟩ 1 1 1 1)
      (.scalar 2) (.scalar 2) (.scalar 2) (.scalar 2) rfl rfl rfl rfl rfl⟩

/-- C10: property accesses are reads: the receiver after accessing `Z`,
`Y`, `z0_characteristic` or `gamma` is the unchanged mode, a repeated
access returns the same value, and the guard's in-place increment is
idempotent on a sample, so repeated accesses never accumulate the
`1e-12` nudge. -/
theorem C10_access_leaves_state (m : DistributedCircuit) :
    (m.Zaccess.2 = m ∧ m.Yaccess.2 = m ∧ m.z0access.2 = m ∧ m.gammaAccess.2 = m) ∧
    ((m.Zaccess.2).Zaccess.1 = m.Zaccess.1 ∧
     (m.Yaccess.2).Yaccess.1 = m.Yaccess.1 ∧
     (m.z0access.2).z0access.1 = m.z0access.1 ∧
     (m.gammaAccess.2).gammaAccess.1 = m.gammaAccess.1) ∧
    (∀ z : ℂ, nudgeAt (nudgeAt z) = nudgeAt z) :=
  ⟨⟨rfl, rfl, rfl, rfl⟩, ⟨rfl, rfl, rfl, rfl⟩, nudgeAt_idem⟩

end
